import Mathlib

/-!
Shallow embedding of `alembic/revision.py` (revision DAG map: build/link,
branch-label propagation, identifier resolution, range traversal).

Python dicts are modelled as insertion-ordered association lists; the two
sentinel keys `None` and `()` (both mapping to the null revision) are
collapsed into the key `Option.none`; branch-label keys are kept in a
secondary `aliases` table so that the sharing of mutable `Revision`
objects between an id key and its label keys is represented by
indirection through the id.  Unbounded Python loops (generator walks,
the backward label walk, the traversal work queue, the mutually
recursive resolution helpers) take an explicit `fuel : Nat` and return
an `outOfFuel` error when it runs out; on any terminating Python run the
result is independent of the fuel once it is large enough.  Python
exceptions (`RevisionError` and subclasses, `KeyError`, the
`AttributeError` raised when the null revision is dereferenced) are
modelled as values of `RevErr` in an `Except`.
-/

set_option maxRecDepth 8000

namespace Alembic

/-- `p` is a character-wise prefix of `s` (Python `s.startswith(p)`). -/
def strStarts (s p : String) : Bool := p.data.isPrefixOf s.data

/-- `p` is a character-wise suffix of `s` (Python `s.endswith(p)`). -/
def strEnds (s p : String) : Bool := p.data.reverse.isPrefixOf s.data.reverse

/-- Python `'@' in s`. -/
def strHasAt (s : String) : Bool := s.data.contains '@'

/-- Python `s.split('@', 1)`: the part before the first `'@'` and the part after it. -/
def splitFirstAt (s : String) : String × String :=
  (⟨s.data.takeWhile (fun c => !(c == '@'))⟩,
   ⟨(s.data.dropWhile (fun c => !(c == '@'))).drop 1⟩)

/-- Decimal value of a digit run. -/
def digitsVal (ds : List Char) : Nat := ds.foldl (fun n c => n * 10 + (c.toNat - 48)) 0

/-- Match `(?:\+|-)\d+` at the start of `cs` (rest of the string is ignored,
as `re.match` is not end-anchored); returns the signed value of the maximal
digit run. -/
def parseRelAt (cs : List Char) : Option Int :=
  match cs with
  | [] => none
  | c :: rest =>
    if c == '+' || c == '-' then
      let ds := rest.takeWhile Char.isDigit
      if ds.isEmpty then none
      else some (if c == '-' then -(digitsVal ds : Int) else (digitsVal ds : Int))
    else none

/-- Lazy search for `(.+?)@` followed by a relative part: the leftmost `'@'`
preceded by at least one character and followed by `(?:\+|-)\d+` wins;
`seen` holds the characters before the current position, reversed. -/
def relSplitAt (seen : List Char) (cs : List Char) : Option (String × Int) :=
  match cs with
  | [] => none
  | c :: rest =>
    if c == '@' && !seen.isEmpty then
      match parseRelAt rest with
      | some v => some (⟨seen.reverse⟩, v)
      | none => relSplitAt (c :: seen) rest
    else relSplitAt (c :: seen) rest

/-- `_relative_destination.match(s)` for the regex
`(?:(.+?)@)?((?:\+|-)\d+)`: an optional branch label and the signed step
count. -/
def relativeMatch (s : String) : Option (Option String × Int) :=
  match relSplitAt [] s.data with
  | some (lbl, v) => some (some lbl, v)
  | none => (parseRelAt s.data).map (fun v => ((none : Option String), v))

/-- Add `s` to the ordered set `l` if absent (Python `set.add` /
`OrderedSet.add` with first-insertion order kept). -/
def addUnique (l : List String) (s : String) : List String :=
  if l.contains s then l else l ++ [s]

/-- Ordered-set union: add each element of `xs` to `l` if absent
(Python `set.update`). -/
def listUnion (l : List String) (xs : List String) : List String :=
  xs.foldl addUnique l

/-- Python truthiness of an optional string (`None` and `""` are falsy). -/
def truthyOpt (o : Option String) : Bool :=
  match o with
  | some s => !(s == "")
  | none => false

/-- One revision node (`class Revision`).  `down_revision` is kept in the
normalized `_down_revision_tuple` form (a list of parent ids; `[]` for the
Python `None`), `orig_branch_labels` is `_orig_branch_labels`, and
`branch_labels` / `nextrev` are the mutable sets, as ordered
first-insertion lists. -/
structure Revision where
  revision : String
  down_revision : List String
  orig_branch_labels : List String
  branch_labels : List String
  nextrev : List String
deriving DecidableEq, Repr

/-- `Revision.__init__`: labels are deduplicated into a set, `nextrev`
starts empty. -/
def Revision.make (revision : String) (down_revision : List String)
    (branch_labels : List String) : Revision :=
  { revision := revision, down_revision := down_revision,
    orig_branch_labels := branch_labels,
    branch_labels := listUnion [] branch_labels, nextrev := [] }

/-- `Revision.is_head`: no other revision points here. -/
def Revision.is_head (r : Revision) : Bool := r.nextrev.isEmpty

/-- `Revision.is_base`: no parents. -/
def Revision.is_base (r : Revision) : Bool := r.down_revision.isEmpty

/-- `Revision.is_branch_point`: more than one child. -/
def Revision.is_branch_point (r : Revision) : Bool := decide (1 < r.nextrev.length)

/-- `Revision.is_merge_point`: more than one parent. -/
def Revision.is_merge_point (r : Revision) : Bool := decide (1 < r.down_revision.length)

/-- `Revision.add_nextrev` (frozenset union with one id). -/
def Revision.add_nextrev (r : Revision) (id : String) : Revision :=
  { r with nextrev := addUnique r.nextrev id }

/-- Children edge function (`lambda rev: rev.nextrev`). -/
def nextFn (r : Revision) : List String := r.nextrev

/-- Parent edge function (`lambda rev: rev._down_revision_tuple`). -/
def downFn (r : Revision) : List String := r.down_revision

/-- The state of `RevisionMap` after `_revision_map` is built: the dict is
split into id keys (`ids` in insertion order, `nodes` the id-indexed
objects) and branch-label keys (`aliases`, label to id, in insertion
order); the `None`/`()` sentinel entries are implicit in `lookupKey`. -/
structure RevisionMap where
  ids : List String
  nodes : List (String × Revision)
  aliases : List (String × String)
  heads : List String
  bases : List String
deriving DecidableEq, Repr

/-- Current object stored under an id key. -/
def RevisionMap.node? (m : RevisionMap) (s : String) : Option Revision :=
  (m.nodes.find? (fun p => p.1 == s)).map (fun p => p.2)

/-- Dict lookup `self._revision_map[k]`: outer `none` is a `KeyError`,
inner `none` is the null revision stored under the sentinel keys. -/
def RevisionMap.lookupKey (m : RevisionMap) (k : Option String) :
    Option (Option Revision) :=
  match k with
  | none => some none
  | some s =>
    match m.node? s with
    | some r => some (some r)
    | none =>
      match m.aliases.find? (fun p => p.1 == s) with
      | some p => (m.node? p.2).map some
      | none => none

/-- The truthy string keys of the dict, in insertion order (ids first,
then branch labels; the falsy sentinel keys are dropped by the callers'
`if x` filters). -/
def RevisionMap.keyList (m : RevisionMap) : List String :=
  m.ids ++ m.aliases.map (fun p => p.1)

/-- Python `k in self._revision_map` for a string `k`. -/
def RevisionMap.containsKey (m : RevisionMap) (s : String) : Bool :=
  (m.node? s).isSome || (m.aliases.find? (fun p => p.1 == s)).isSome

/-- Replace the object stored under an id key (a mutation of the shared
`Revision` object, seen through every alias). -/
def RevisionMap.updateNode (m : RevisionMap) (id : String)
    (f : Revision → Revision) : RevisionMap :=
  { m with nodes := m.nodes.map (fun p => if p.1 == id then (p.1, f p.2) else p) }

/-- Error taxonomy: each constructor stands for one `raise` site (or one
spot where the Python code would crash with `KeyError`/`AttributeError`),
carrying the data interpolated into its message. -/
inductive RevErr where
  | resolutionNone (id : String)
  | resolutionAmbiguous (id : String) (candidates : List String)
  | noSuchBranch (label : String)
  | notMemberOfBranch (rev : String) (branch : String)
  | multipleHeads (heads : List String) (argument : String)
  | rangeNotAncestor (lower upper : Option String)
  | overlaps (rev : String)
  | relativeNotProduced (ident : String) (n : Nat)
  | branchNameUsed (label : String) (rev : String) (existing : String)
  | keyError (k : String)
  | nullRevision
  | outOfFuel
deriving DecidableEq, Repr

/-- The two `util.warn` sites of the build. -/
inductive BuildWarn where
  | duplicateRevision (id : String)
  | missingRevision (down : List String) (src : String)
deriving DecidableEq, Repr

/-- Dereference an optional revision (`None` here would raise
`AttributeError` in Python). -/
def denull (x : Option Revision) : Except RevErr Revision :=
  match x with
  | some r => .ok r
  | none => .error .nullRevision

/-- Dereference a list of optional revisions. -/
def denullList : List (Option Revision) → Except RevErr (List Revision)
  | [] => .ok []
  | x :: rest => do
    let r ← denull x
    let tail ← denullList rest
    pure (r :: tail)

/-- `self._revision_map[d]` for an edge-target id `d` (a `KeyError` if
absent; the null revision cannot sit under a string key). -/
def lookupRev (m : RevisionMap) (d : String) : Except RevErr Revision :=
  match m.lookupKey (some d) with
  | some (some r) => .ok r
  | some none => .error .nullRevision
  | none => .error (.keyError d)

/-- Look up each edge-target id. -/
def nodesOf (m : RevisionMap) : List String → Except RevErr (List Revision)
  | [] => .ok []
  | d :: rest => do
    let r ← lookupRev m d
    let tail ← nodesOf m rest
    pure (r :: tail)

/-- The inner `while todo:` of `_iterate_related_revisions`: a stack walk
(`todo.pop()` from the right, children appended to the right), yielding
each popped node.  The list argument is the deque reversed, so its head
is the right end. -/
def drain (m : RevisionMap) (fn : Revision → List String) :
    Nat → List Revision → Except RevErr (List Revision)
  | _, [] => .ok []
  | 0, _ :: _ => .error .outOfFuel
  | fuel + 1, rev :: rest => do
    let nexts ← nodesOf m (fn rev)
    let tail ← drain m fn fuel (nexts.reverse ++ rest)
    pure (rev :: tail)

/-- The outer per-target loop of `_iterate_related_revisions`, with the
`check` overlap test (`per_target.intersection(targets).difference([target])`). -/
def relatedAux (m : RevisionMap) (fn : Revision → List String)
    (allTargets : List Revision) (check : Bool) (fuel : Nat) :
    List Revision → Except RevErr (List Revision)
  | [] => .ok []
  | t :: rest => do
    let yielded ← drain m fn fuel [t]
    if check && yielded.any (fun r => allTargets.contains r && !(r == t)) then
      .error (.overlaps t.revision)
    else do
      let tail ← relatedAux m fn allTargets check fuel rest
      pure (yielded ++ tail)

/-- `RevisionMap._iterate_related_revisions`. -/
def iterate_related_revisions (m : RevisionMap) (fn : Revision → List String)
    (targets : List Revision) (check : Bool) (fuel : Nat) :
    Except RevErr (List Revision) :=
  relatedAux m fn targets check fuel targets

/-- `RevisionMap._get_descendant_nodes`. -/
def get_descendant_nodes (m : RevisionMap) (targets : List Revision)
    (check : Bool) (fuel : Nat) : Except RevErr (List Revision) :=
  iterate_related_revisions m nextFn targets check fuel

/-- `RevisionMap._get_ancestor_nodes`. -/
def get_ancestor_nodes (m : RevisionMap) (targets : List Revision)
    (check : Bool) (fuel : Nat) : Except RevErr (List Revision) :=
  iterate_related_revisions m downFn targets check fuel

/-- Accumulator of the first build pass. -/
structure BuildState where
  m : RevisionMap
  warns : List BuildWarn
  labeled : List String
deriving Repr

/-- The empty map. -/
def emptyMap : RevisionMap := ⟨[], [], [], [], []⟩

/-- One step of the first build pass: index by id (warn on a duplicate,
last value wins, first position kept), record labelled revisions, add the
id to `heads`, and append parentless ids to `bases`. -/
def insertIntoMap (st : BuildState) (r : Revision) : BuildState :=
  let dup := (st.m.node? r.revision).isSome
  let warns := if dup then st.warns ++ [.duplicateRevision r.revision] else st.warns
  let nodes :=
    if dup then st.m.nodes.map (fun p => if p.1 == r.revision then (p.1, r) else p)
    else st.m.nodes ++ [(r.revision, r)]
  let ids := if st.m.ids.contains r.revision then st.m.ids else st.m.ids ++ [r.revision]
  let labeled := if r.branch_labels.isEmpty then st.labeled else st.labeled ++ [r.revision]
  let heads := addUnique st.m.heads r.revision
  let bases := if r.is_base then st.m.bases ++ [r.revision] else st.m.bases
  ⟨⟨ids, nodes, st.m.aliases, heads, bases⟩, warns, labeled⟩

/-- Inner loop of the second build pass, over one revision's parent ids:
warn when the parent id is absent, then do `map_[downrev]` anyway (a
`KeyError` when absent), link the child into the parent's `nextrev` and
discard the parent from `heads`. -/
def linkOne (ws : List BuildWarn) (m : RevisionMap) (rev : Revision) :
    List String → List BuildWarn × Except RevErr RevisionMap
  | [] => (ws, .ok m)
  | d :: rest =>
    let ws := if (m.node? d).isNone then ws ++ [.missingRevision rev.down_revision rev.revision]
              else ws
    match m.node? d with
    | none => (ws, .error (.keyError d))
    | some _ =>
      let m := m.updateNode d (fun dn => dn.add_nextrev rev.revision)
      let m := { m with heads := m.heads.erase d }
      linkOne ws m rev rest

/-- One step of the second build pass (`for rev in map_.values()`). -/
def linkDownrevs (acc : List BuildWarn × Except RevErr RevisionMap) (revId : String) :
    List BuildWarn × Except RevErr RevisionMap :=
  match acc with
  | (ws, .error e) => (ws, .error e)
  | (ws, .ok m) =>
    match m.node? revId with
    | none => (ws, .error (.keyError revId))
    | some rev => linkOne ws m rev rev.down_revision

/-- Register each original branch label of `revId` as an extra key of the
dict, failing on a collision with any existing key
(`"Branch name ... already used by revision ..."`). -/
def registerLabels (m : RevisionMap) (revId : String) :
    List String → Except RevErr RevisionMap
  | [] => .ok m
  | lbl :: rest =>
    match m.lookupKey (some lbl) with
    | some (some ex) => .error (.branchNameUsed lbl revId ex.revision)
    | some none => .error .nullRevision
    | none => registerLabels { m with aliases := m.aliases ++ [(lbl, revId)] } revId rest

/-- Add `lbls` to the label set of every node of the forward walk. -/
def applyLabels (m : RevisionMap) (walk : List Revision) (lbls : List String) :
    RevisionMap :=
  walk.foldl
    (fun m n => m.updateNode n.revision
      (fun r => { r with branch_labels := listUnion r.branch_labels lbls }))
    m

/-- The backward walk of `_add_branches`: from `pid`, while the current
node is neither a branch point nor a merge point, add the labels and step
to the single parent (stopping at a base; the scalar `down_revision` of a
non-merge node is its single parent id, and the Python falsy `""` ends
the loop too). -/
def back_propagate (lbls : List String) :
    RevisionMap → String → Nat → Except RevErr RevisionMap
  | _, _, 0 => .error .outOfFuel
  | m, pid, fuel + 1 =>
    match m.node? pid with
    | none => .error (.keyError pid)
    | some p =>
      if p.is_branch_point || p.is_merge_point then .ok m
      else
        let m' := m.updateNode pid
          (fun r => { r with branch_labels := listUnion r.branch_labels lbls })
        match p.down_revision with
        | [] => .ok m'
        | d :: _ => if d == "" then .ok m' else back_propagate lbls m' d fuel

/-- `RevisionMap._add_branches`: register the label keys, push the labels
forward over every node the descendant walk yields, then walk backward
from the last node that walk visited. -/
def add_branches (m : RevisionMap) (revId : String) (fuel : Nat) :
    Except RevErr RevisionMap :=
  match m.node? revId with
  | none => .error (.keyError revId)
  | some rev =>
    if rev.branch_labels.isEmpty then .ok m
    else do
      let m ← registerLabels m revId rev.orig_branch_labels
      let walk ← get_descendant_nodes m [rev] false fuel
      let lbls := rev.branch_labels
      let m := applyLabels m walk lbls
      match walk.getLast? with
      | none => .ok m
      | some lastRev => back_propagate lbls m lastRev.revision fuel

/-- The label pass of the build (`for revision in has_branch_labels`). -/
def branchesPhase : RevisionMap → List String → Nat → Except RevErr RevisionMap
  | m, [], _ => .ok m
  | m, rid :: rest, fuel =>
    match add_branches m rid fuel with
    | .error e => .error e
    | .ok m' => branchesPhase m' rest fuel

/-- `RevisionMap._revision_map`: the full build, returning the warnings
it logged alongside the result (an error when the Python build would
raise). -/
def build_revision_map (revs : List Revision) (fuel : Nat) :
    List BuildWarn × Except RevErr RevisionMap :=
  let st := revs.foldl insertIntoMap ⟨emptyMap, [], []⟩
  let (ws, r) := st.m.ids.foldl linkDownrevs (st.warns, .ok st.m)
  match r with
  | .error e => (ws, .error e)
  | .ok m => (ws, branchesPhase m st.labeled fuel)

/-- Truthy string keys starting with `s`
(`[x for x in self._revision_map if x and x.startswith(resolved_id)]`). -/
def candidate_keys (m : RevisionMap) (s : String) : List String :=
  m.keyList.filter (fun x => !(x == "") && strStarts x s)

/-- `RevisionMap._revision_for_ident` with `check_branch=None` (the shape
taken by every internal call that passes no branch): exact dict lookup,
falling back to the prefix search with its zero/one/many outcomes. -/
def revision_for_ident_nocheck (m : RevisionMap) (resolved : Option String) :
    Except RevErr (Option Revision) :=
  match m.lookupKey resolved with
  | some r => .ok r
  | none =>
    match resolved with
    | none => .error (.keyError "")
    | some s =>
      match candidate_keys m s with
      | [] => .error (.resolutionNone s)
      | [r] =>
        (match m.lookupKey (some r) with
         | some rv => .ok rv
         | none => .error (.keyError r))
      | cands => .error (.resolutionAmbiguous s (cands.take 3))

/-- `RevisionMap._resolve_branch`. -/
def resolve_branch (m : RevisionMap) (lbl : String) :
    Except RevErr (Option Revision) :=
  match m.lookupKey (some lbl) with
  | some r => .ok r
  | none =>
    match revision_for_ident_nocheck m (some lbl) with
    | .ok r => .ok r
    | .error (.resolutionNone _) => .error (.noSuchBranch lbl)
    | .error (.resolutionAmbiguous _ _) => .error (.noSuchBranch lbl)
    | .error e => .error e

/-- Resolve each member of `test_against_revs` that is not already a
`Revision` (in our call sites, every member is an identifier). -/
def resolve_tests (m : RevisionMap) :
    List (Option String) → Except RevErr (List (Option Revision))
  | [] => .ok []
  | t :: rest => do
    let r ← revision_for_ident_nocheck m t
    let tail ← resolve_tests m rest
    pure (r :: tail)

/-- `RevisionMap._shares_lineage`: the reference set intersects the union
of the target's descendant and ancestor closures (an empty reference set
passes). -/
def shares_lineage (m : RevisionMap) (target : String)
    (tests : List (Option String)) (fuel : Nat) : Except RevErr Bool :=
  if tests.isEmpty then .ok true
  else do
    let tRev ← revision_for_ident_nocheck m (some target)
    let t ← denull tRev
    let testRevs ← resolve_tests m tests
    let descs ← get_descendant_nodes m [t] false fuel
    let ancs ← get_ancestor_nodes m [t] false fuel
    pure ((descs ++ ancs).any (fun r => testRevs.contains (some r)))

/-- The request string named by a `MultipleHeads` error from
`get_current_head` (`"%s@head" % branch_label if branch_label else "head"`). -/
def head_argument (branch_label : Option String) : String :=
  match branch_label with
  | some l => if l == "" then "head" else l ++ "@head"
  | none => "head"

/-- The list comprehension of `filter_for_lineage`: keep the targets that
share lineage with `shares`. -/
def lineage_filter (m : RevisionMap) (shares : List (Option String)) (fuel : Nat) :
    List String → Except RevErr (List String)
  | [] => .ok []
  | t :: rest => do
    let b ← shares_lineage m t shares fuel
    let tail ← lineage_filter m shares fuel rest
    pure (if b then t :: tail else tail)

mutual

/-- `RevisionMap._resolve_revision_number`: split a `branch@rest`
qualifier, then interpret the symbolic tokens `heads` / `head` / `base` /
`None`, or fall through to a one-element tuple. -/
def resolve_revision_number (m : RevisionMap) (id? : Option String) (fuel : Nat) :
    Except RevErr (List (Option String) × Option String) :=
  match fuel with
  | 0 => .error .outOfFuel
  | fuel + 1 =>
    let pr : Option String × Option String :=
      match id? with
      | some s =>
        if strHasAt s then
          let p := splitFirstAt s
          (some p.1, some p.2)
        else (none, some s)
      | none => (none, none)
    match pr.2 with
    | some s =>
      if s == "heads" then
        if truthyOpt pr.1 then do
          let hs ← filter_for_lineage m m.heads pr.1 fuel
          pure (hs.map some, pr.1)
        else pure (m.heads.map some, pr.1)
      else if s == "head" then do
        let h ← get_current_head m pr.1 fuel
        pure ([h], pr.1)
      else if s == "base" then pure ([], pr.1)
      else pure ([some s], pr.1)
    | none => pure ([], pr.1)

/-- `RevisionMap.get_current_head`: the heads (restricted to the branch's
lineage when a truthy label is given); more than one is a
`MultipleHeads` error naming the candidates and the request string. -/
def get_current_head (m : RevisionMap) (branch_label : Option String) (fuel : Nat) :
    Except RevErr (Option String) :=
  match fuel with
  | 0 => .error .outOfFuel
  | fuel + 1 => do
    let ch ← if truthyOpt branch_label then filter_for_lineage m m.heads branch_label fuel
             else pure m.heads
    if decide (1 < ch.length) then
      .error (.multipleHeads ch (head_argument branch_label))
    else
      match ch with
      | h :: _ => pure (some h)
      | [] => pure none

/-- `RevisionMap.filter_for_lineage`: resolve `check_against`, collect the
truthy branch label and the first resolved id as the reference set, and
keep the targets sharing lineage with it. -/
def filter_for_lineage (m : RevisionMap) (targets : List String)
    (check_against : Option String) (fuel : Nat) : Except RevErr (List String) :=
  match fuel with
  | 0 => .error .outOfFuel
  | fuel + 1 => do
    let pr ← resolve_revision_number m check_against fuel
    let shares : List (Option String) :=
      (if truthyOpt pr.2 then [pr.2] else []) ++
      (match pr.1 with
       | [] => []
       | x :: _ => [x])
    lineage_filter m shares fuel targets

end

/-- `RevisionMap._revision_for_ident` with a branch qualifier: resolve the
branch, look the identifier up (restricting prefix candidates to the
branch's lineage), and reject a match outside that lineage. -/
def revision_for_ident (m : RevisionMap) (resolved : Option String)
    (check_branch : Option String) (fuel : Nat) : Except RevErr (Option Revision) := do
  let branch_rev : Option Revision ←
    if truthyOpt check_branch then
      resolve_branch m (match check_branch with | some l => l | none => "")
    else pure none
  let revision : Option Revision ←
    match m.lookupKey resolved with
    | some r => pure r
    | none =>
      match resolved with
      | none => .error (.keyError "")
      | some s => do
        let revs := candidate_keys m s
        let revs ← if branch_rev.isSome then filter_for_lineage m revs check_branch fuel
                   else pure revs
        match revs with
        | [] => .error (.resolutionNone s)
        | [r] =>
          (match m.lookupKey (some r) with
           | some rv => pure rv
           | none => .error (.keyError r))
        | cands => .error (.resolutionAmbiguous s (cands.take 3))
  if truthyOpt check_branch then
    match revision with
    | some rv => do
      let brev ← denull branch_rev
      let ok ← shares_lineage m rv.revision [some brev.revision] fuel
      if ok then pure revision
      else .error (.notMemberOfBranch rv.revision
        (match check_branch with | some l => l | none => ""))
    | none => pure revision
  else pure revision

/-- Look up each resolved identifier
(`tuple(self._revision_for_ident(rev_id, branch_label) for rev_id in resolved_id)`). -/
def idents_lookup (m : RevisionMap) (branch_label : Option String) (fuel : Nat) :
    List (Option String) → Except RevErr (List (Option Revision))
  | [] => .ok []
  | rid :: rest => do
    let r ← revision_for_ident m rid branch_label fuel
    let tail ← idents_lookup m branch_label fuel rest
    pure (r :: tail)

/-- `RevisionMap.get_revisions` on one identifier. -/
def get_revisions_one (m : RevisionMap) (s : Option String) (fuel : Nat) :
    Except RevErr (List (Option Revision)) := do
  let pr ← resolve_revision_number m s fuel
  idents_lookup m pr.2 fuel pr.1

/-- A request: one identifier (a string or the Python `None`), or a
collection of id strings (the shape the internal callers pass). -/
inductive Ident where
  | one (s : Option String)
  | many (ss : List String)

/-- `RevisionMap.get_revisions` on a collection: resolve each member and
concatenate. -/
def get_revisions_many (m : RevisionMap) (fuel : Nat) :
    List String → Except RevErr (List (Option Revision))
  | [] => .ok []
  | s :: rest => do
    let rs ← get_revisions_one m (some s) fuel
    let tail ← get_revisions_many m fuel rest
    pure (rs ++ tail)

/-- `RevisionMap.get_revisions`. -/
def get_revisions (m : RevisionMap) (id : Ident) (fuel : Nat) :
    Except RevErr (List (Option Revision)) :=
  match id with
  | .one s => get_revisions_one m s fuel
  | .many ss => get_revisions_many m fuel ss

/-- `RevisionMap.get_revision` (single-result variant; a multi-valued
resolution is a `MultipleHeads` error naming the resolved ids and the
request). -/
def get_revision (m : RevisionMap) (s : Option String) (fuel : Nat) :
    Except RevErr (Option Revision) := do
  let pr ← resolve_revision_number m s fuel
  if decide (1 < pr.1.length) then
    .error (.multipleHeads
      (pr.1.map (fun o => match o with | some x => x | none => "None"))
      (match s with | some x => x | none => "None"))
  else
    revision_for_ident m (match pr.1 with | r :: _ => r | [] => none) pr.2 fuel

/-- `RevisionMap._get_base_revisions`. -/
def get_base_revisions (m : RevisionMap) (identifier : Option String) (fuel : Nat) :
    Except RevErr (List String) :=
  filter_for_lineage m m.bases identifier fuel

/-- The `for downrev in rev._down_revision_tuple: if map_[downrev] in
candidate_lowers: break` test (lookups happen left to right until a hit). -/
def any_down_in (m : RevisionMap) (cands : List Revision) :
    List String → Except RevErr Bool
  | [] => .ok false
  | d :: rest => do
    let dn ← lookupRev m d
    if cands.contains dn then pure true else any_down_in m cands rest

/-- Keep the candidate lowers none of whose parents is itself a candidate
(the topologically maximal ones of the candidate set). -/
def keep_roots (m : RevisionMap) (cands : List Revision) :
    List Revision → Except RevErr (List Revision)
  | [] => .ok []
  | r :: rest => do
    let b ← any_down_in m cands r.down_revision
    let tail ← keep_roots m cands rest
    pure (if b then tail else r :: tail)

/-- Set union on optional revisions (Python `set.union`; canonical order:
left operand first, then the new elements of the right one). -/
def setUnionOpt (xs ys : List (Option Revision)) : List (Option Revision) :=
  xs ++ (ys.dedup.filter (fun y => !(xs.contains y)))

/-- The `lowers` computation of `_iterate_revisions` (lines 480-506): the
branch-limited base set, the implicit-base candidate analysis, the
default to all bases, or the requested lowers themselves. -/
def compute_lowers (m : RevisionMap) (upper_ancestors : List Revision)
    (requested_lowers : List (Option Revision)) (lower : Option String)
    (implicit_base : Bool) (fuel : Nat) : Except RevErr (List (Option Revision)) :=
  let limit_to_lower_branch :=
    match lower with
    | some l => strEnds l "@base"
    | none => false
  if limit_to_lower_branch then do
    let baseIds ← get_base_revisions m lower fuel
    get_revisions m (.many baseIds) fuel
  else if implicit_base && !requested_lowers.isEmpty then do
    let rls ← denullList requested_lowers
    let lower_ancestors ← get_ancestor_nodes m rls false fuel
    let lower_descendants ← get_descendant_nodes m rls false fuel
    let candidate_lowers := upper_ancestors.dedup.filter
      (fun r => !(lower_ancestors.contains r) && !(lower_descendants.contains r))
    let base_lowers ← keep_roots m candidate_lowers candidate_lowers
    pure (setUnionOpt (base_lowers.map some) requested_lowers)
  else if implicit_base then do
    let bs ← get_revisions m (.many m.bases) fuel
    pure (setUnionOpt bs.dedup requested_lowers)
  else if requested_lowers.isEmpty then do
    let bs ← get_revisions m (.many m.bases) fuel
    pure bs.dedup
  else pure requested_lowers

/-- The `while todo:` queue of `_iterate_revisions`: before each pop,
every queued branch endpoint enters `stop`; the popped node's in-range
non-barrier parents go to the front (depth first, parent order kept),
its in-range barrier parents to the back; the node is yielded unless the
range is exclusive and it was an explicitly requested lower. -/
def iter_loop (m : RevisionMap) (total_space branch_endpoints : List String)
    (requested_lowers : List (Option Revision)) (inclusive : Bool) :
    Nat → List Revision → List String → Except RevErr (List Revision)
  | _, [], _ => .ok []
  | 0, _ :: _, _ => .error .outOfFuel
  | fuel + 1, rev :: rest, stop =>
    let stop := listUnion stop
      (((rev :: rest).map Revision.revision).filter
        (fun x => branch_endpoints.contains x))
    do
      let front ← nodesOf m (rev.down_revision.filter
        (fun d => !(branch_endpoints.contains d) && !(stop.contains d)
          && total_space.contains d))
      let back ← nodesOf m (rev.down_revision.filter
        (fun d => branch_endpoints.contains d && !(stop.contains d)
          && total_space.contains d))
      let tail ← iter_loop m total_space branch_endpoints requested_lowers inclusive
        fuel (front ++ rest ++ back) stop
      if !inclusive && requested_lowers.contains (some rev) then pure tail
      else pure (rev :: tail)

/-- `RevisionMap._iterate_revisions` (fully consumed).  Python seeds
`stop` with the lower `Revision` objects themselves (and, under
`implicit_base`, with the ancestor objects of the requested lowers), but
every membership test against `stop` uses an id string, which never
equals a `Revision` object, so only the strings added inside the loop
are observable; the `implicit_base` ancestor walk is still run for its
errors. -/
def iterate_revisions_inner (m : RevisionMap) (upper lower : Option String)
    (inclusive implicit_base : Bool) (fuel : Nat) : Except RevErr (List Revision) := do
  let requested_lowers ← get_revisions_one m lower fuel
  let uppers ← get_revisions_one m upper fuel
  let uppersR ← denullList uppers
  let upper_ancestors ← get_ancestor_nodes m uppersR true fuel
  let lowers ← compute_lowers m upper_ancestors requested_lowers lower implicit_base fuel
  let lowersR ← denullList lowers
  let lower_descendants ← get_descendant_nodes m lowersR true fuel
  let total_space := ((upper_ancestors.map Revision.revision).dedup).filter
    (fun x => (lower_descendants.map Revision.revision).contains x)
  if total_space.isEmpty then .error (.rangeNotAncestor lower upper)
  else do
    let branch_endpoints := total_space.filter (fun x =>
      match m.node? x with
      | some r => r.is_branch_point
          && decide (1 < (r.nextrev.filter (fun n => total_space.contains n)).length)
      | none => false)
    let todo := uppersR.filter (fun r => total_space.contains r.revision)
    if implicit_base then do
      let rls ← denullList requested_lowers
      let _ ← get_ancestor_nodes m rls false fuel
      iter_loop m total_space branch_endpoints requested_lowers inclusive fuel todo []
    else
      iter_loop m total_space branch_endpoints requested_lowers inclusive fuel todo []

/-- Python `xs[i:]` with a possibly negative `i` (clamped). -/
def pySliceFrom (xs : List Revision) (i : Int) : List Revision :=
  if i < 0 then xs.drop ((xs.length : Int) + i).toNat else xs.drop i.toNat

/-- Python `xs[0:i]` with a possibly negative `i` (clamped). -/
def pySliceTo (xs : List Revision) (i : Int) : List Revision :=
  if i < 0 then xs.take ((xs.length : Int) + i).toNat else xs.take i.toNat

/-- The relative-`lower` arm of `iterate_revisions` and the plain
fallthrough. -/
def iterate_revisions_lowrel (m : RevisionMap) (upper lower : Option String)
    (implicit_base inclusive : Bool) (fuel : Nat) : Except RevErr (List Revision) :=
  match lower with
  | some l =>
    (match relativeMatch l with
     | some (branch_label, relative) => do
       let reldelta : Int := if inclusive then 1 else 0
       let to_ := match branch_label with
         | some b => b ++ "@base"
         | none => "base"
       let revs ← iterate_revisions_inner m upper (some to_) inclusive implicit_base fuel
       let revs := pySliceTo revs (-relative + reldelta)
       if (revs.length : Int) != (relative.natAbs : Int) + reldelta then
         .error (.relativeNotProduced l relative.natAbs)
       else pure revs
     | none => iterate_revisions_inner m upper lower inclusive implicit_base fuel)
  | none => iterate_revisions_inner m upper lower inclusive implicit_base fuel

/-- `RevisionMap.iterate_revisions`: the relative-`upper` arm (anchor at
`head`, keep the trailing entries), the relative-`lower` arm (anchor at
`base`, keep the leading entries), or the plain range. -/
def iterate_revisions (m : RevisionMap) (upper lower : Option String)
    (implicit_base inclusive : Bool) (fuel : Nat) : Except RevErr (List Revision) :=
  match upper with
  | some u =>
    (match relativeMatch u with
     | some (branch_label, relative) => do
       let reldelta : Int := if inclusive then 1 else 0
       let from_ := match branch_label with
         | some b => b ++ "@head"
         | none => "head"
       let revs ← iterate_revisions_inner m (some from_) lower inclusive implicit_base fuel
       let revs := pySliceFrom revs (-relative - reldelta)
       if (revs.length : Int) != (relative.natAbs : Int) + reldelta then
         .error (.relativeNotProduced u relative.natAbs)
       else pure revs
     | none => iterate_revisions_lowrel m upper lower implicit_base inclusive fuel)
  | none => iterate_revisions_lowrel m upper lower implicit_base inclusive fuel



/-- Reduction lemmas for the `Except` monad operations used by the `do`
blocks above. -/
@[simp] theorem except_bind_ok {α β : Type} (a : α) (f : α → Except RevErr β) :
    (Except.ok a >>= f) = f a := rfl

@[simp] theorem except_bind_error {α β : Type} (e : RevErr) (f : α → Except RevErr β) :
    ((Except.error e : Except RevErr α) >>= f) = .error e := rfl

@[simp] theorem except_bindf_ok {α β : Type} (a : α) (f : α → Except RevErr β) :
    Except.bind (Except.ok a) f = f a := rfl

@[simp] theorem except_bindf_error {α β : Type} (e : RevErr) (f : α → Except RevErr β) :
    Except.bind (Except.error e : Except RevErr α) f = .error e := rfl

@[simp] theorem except_map_ok {α β : Type} (a : α) (f : α → β) :
    (Except.ok a : Except RevErr α).map f = .ok (f a) := rfl

@[simp] theorem except_map_error {α β : Type} (e : RevErr) (f : α → β) :
    (Except.error e : Except RevErr α).map f = .error e := rfl

@[simp] theorem except_pure_eq_ok {α : Type} (a : α) :
    (pure a : Except RevErr α) = .ok a := rfl

@[simp] theorem except_bind_pure_ok {α β : Type} (a : α) (f : α → Except RevErr β) :
    ((pure a : Except RevErr α) >>= f) = f a := rfl

@[simp] theorem except_mapf_ok {α β : Type} (a : α) (f : α → β) :
    (f <$> (Except.ok a : Except RevErr α)) = .ok (f a) := rfl

@[simp] theorem except_mapf_error {α β : Type} (e : RevErr) (f : α → β) :
    (f <$> (Except.error e : Except RevErr α)) = .error e := rfl

/-- An id string with no special meaning to the resolver. -/
def plainId (s : String) : Prop :=
  s ≠ "heads" ∧ s ≠ "head" ∧ s ≠ "base" ∧ '@' ∉ s.data

/-- The map built over the linear three-node chain `a ← b ← c`. -/
def chainMap3 (a b c : String) : RevisionMap :=
  ⟨[a, b, c],
   [(a, ⟨a, [], [], [], [b]⟩), (b, ⟨b, [a], [], [], [c]⟩), (c, ⟨c, [b], [], [], []⟩)],
   [], [c], [a]⟩

section C1
variable {a b c : String}

theorem chain3_build (hab : a ≠ b) (hac : a ≠ c) (hbc : b ≠ c) :
    (build_revision_map
      [Revision.make a [] [], Revision.make b [a] [], Revision.make c [b] []] 8).2 =
      .ok (chainMap3 a b c) := by
  simp [build_revision_map, insertIntoMap, linkDownrevs, linkOne, branchesPhase,
    RevisionMap.node?, RevisionMap.updateNode, Revision.make, Revision.is_base,
    emptyMap, addUnique, listUnion, Revision.add_nextrev, List.erase, chainMap3,
    hab, hac, hbc, Ne.symm hab, Ne.symm hac, Ne.symm hbc]

theorem chain3_lowers :
    get_revisions_one (chainMap3 a b c) (some "base") 8 = .ok [] := by
  simp [get_revisions_one, resolve_revision_number, strHasAt, truthyOpt, idents_lookup]

theorem chain3_uppers (hac : a ≠ c) (hbc : b ≠ c) :
    get_revisions_one (chainMap3 a b c) (some "head") 8 =
      .ok [some ⟨c, [b], [], [], []⟩] := by
  simp [get_revisions_one, resolve_revision_number, strHasAt, truthyOpt, chainMap3,
    get_current_head, idents_lookup, revision_for_ident, RevisionMap.lookupKey,
    RevisionMap.node?, hac, hbc, Ne.symm hac, Ne.symm hbc]

theorem chain3_anc (hab : a ≠ b) :
    get_ancestor_nodes (chainMap3 a b c) [⟨c, [b], [], [], []⟩] true 8 =
      .ok [⟨c, [b], [], [], []⟩, ⟨b, [a], [], [], [c]⟩, ⟨a, [], [], [], [b]⟩] := by
  simp [get_ancestor_nodes, iterate_related_revisions, relatedAux, drain, nodesOf,
    lookupRev, RevisionMap.lookupKey, RevisionMap.node?, downFn, chainMap3,
    hab, Ne.symm hab]

theorem chain3_desc (hab : a ≠ b) (hac : a ≠ c) (hbc : b ≠ c) :
    get_descendant_nodes (chainMap3 a b c) [⟨a, [], [], [], [b]⟩] true 8 =
      .ok [⟨a, [], [], [], [b]⟩, ⟨b, [a], [], [], [c]⟩, ⟨c, [b], [], [], []⟩] := by
  simp [get_descendant_nodes, iterate_related_revisions, relatedAux, drain, nodesOf,
    lookupRev, RevisionMap.lookupKey, RevisionMap.node?, nextFn, chainMap3,
    hab, hac, hbc, Ne.symm hab, Ne.symm hac, Ne.symm hbc]

theorem chain3_clow (ha : plainId a) :
    compute_lowers (chainMap3 a b c)
      [⟨c, [b], [], [], []⟩, ⟨b, [a], [], [], [c]⟩, ⟨a, [], [], [], [b]⟩]
      [] (some "base") false 8 = .ok [some ⟨a, [], [], [], [b]⟩] := by
  obtain ⟨ha1, ha2, ha3, ha4⟩ := ha
  have h1 : strEnds "base" "@base" = false := rfl
  simp [compute_lowers, h1, get_revisions_many, get_revisions, get_revisions_one,
    resolve_revision_number, strHasAt, truthyOpt, idents_lookup, revision_for_ident,
    RevisionMap.lookupKey, RevisionMap.node?, chainMap3,
    ha1, ha2, ha3, ha4]

set_option maxHeartbeats 1000000 in
theorem chain3_iter (hab : a ≠ b) (hac : a ≠ c) (hbc : b ≠ c)
    (ha : plainId a) :
    iterate_revisions (chainMap3 a b c) (some "head") (some "base") false true 8 =
      .ok [⟨c, [b], [], [], []⟩, ⟨b, [a], [], [], [c]⟩, ⟨a, [], [], [], [b]⟩] := by
  have h0 : relativeMatch "head" = none := rfl
  have h1 : relativeMatch "base" = none := rfl
  rw [iterate_revisions, iterate_revisions_lowrel]
  rw [h0, h1]
  rw [iterate_revisions_inner, chain3_lowers, chain3_uppers hac hbc]
  simp only [except_bind_ok, except_bindf_ok]
  rw [show denullList [some (⟨c, [b], [], [], []⟩ : Revision)] =
      .ok [⟨c, [b], [], [], []⟩] from rfl]
  simp only [except_bind_ok, except_bindf_ok]
  rw [chain3_anc hab]
  simp only [except_bind_ok, except_bindf_ok]
  rw [chain3_clow ha]
  simp only [except_bind_ok, except_bindf_ok]
  rw [show denullList [some (⟨a, [], [], [], [b]⟩ : Revision)] =
      .ok [⟨a, [], [], [], [b]⟩] from rfl]
  simp only [except_bind_ok, except_bindf_ok]
  rw [chain3_desc hab hac hbc]
  simp only [except_bind_ok, except_bindf_ok]
  have hts : (((([⟨c, [b], [], [], []⟩, ⟨b, [a], [], [], [c]⟩,
      ⟨a, [], [], [], [b]⟩] : List Revision).map Revision.revision).dedup).filter
      (fun x => (([⟨a, [], [], [], [b]⟩, ⟨b, [a], [], [], [c]⟩,
        ⟨c, [b], [], [], []⟩] : List Revision).map Revision.revision).contains x)) =
      [c, b, a] := by
    simp [List.dedup_cons_of_not_mem, hab, hac, hbc, Ne.symm hab, Ne.symm hac, Ne.symm hbc]
  rw [hts]
  simp [chainMap3, RevisionMap.node?, Revision.is_branch_point, iter_loop, listUnion,
    nodesOf, lookupRev, RevisionMap.lookupKey, addUnique,
    hab, hac, hbc, Ne.symm hab, Ne.symm hac, Ne.symm hbc]

/-- C1: for every map built over a linear three-node chain `A ← B ← C`
(three distinct ordinary id strings, `C` the sole head, `A` the sole
base), `iterate_revisions(upper="head", lower="base", inclusive=True)`
yields exactly the sequence `[C, B, A]`, in upper-to-lower order. -/
theorem C1_linear_chain_head_to_base (a b c : String)
    (hab : a ≠ b) (hac : a ≠ c) (hbc : b ≠ c) (ha : plainId a) :
    ((build_revision_map
      [Revision.make a [] [], Revision.make b [a] [], Revision.make c [b] []] 8).2.bind
      (fun mr => iterate_revisions mr (some "head") (some "base") false true 8)).map
      (fun l => l.map Revision.revision) = .ok [c, b, a] := by
  rw [chain3_build hab hac hbc]
  simp only [except_bindf_ok]
  rw [chain3_iter hab hac hbc ha]
  rfl

/-- Witness for C1 at the concrete chain `"a" ← "b" ← "c"`. -/
theorem C1_linear_chain_head_to_base_witness :
    ((build_revision_map
      [Revision.make "a" [] [], Revision.make "b" ["a"] [], Revision.make "c" ["b"] []] 8).2.bind
      (fun mr => iterate_revisions mr (some "head") (some "base") false true 8)).map
      (fun l => l.map Revision.revision) = .ok ["c", "b", "a"] :=
  C1_linear_chain_head_to_base "a" "b" "c" (by decide) (by decide) (by decide)
    ⟨by decide, by decide, by decide, by decide⟩

end C1

/- ------------------------------------------------------------------ C2 -/

/-- C2 (code bug): a build whose producer yields the single revision
`"b"` with the absent parent `"a"` logs the dangling-reference warning,
but then executes `down_revision = map_[downrev]` on the very next line
and aborts with a `KeyError` — the dangling edge is not skipped and the
build does not complete. -/
theorem C2_dangling_parent_aborts_build :
    build_revision_map [Revision.make "b" ["a"] []] 8 =
      ([.missingRevision ["a"] "b"], .error (.keyError "a")) := rfl

/- ------------------------------------------------------------------ C6 -/

/-- The map built from revisions `"abc123"` and `"abc456" ← "abc123"`. -/
def abcMap : RevisionMap :=
  ⟨["abc123", "abc456"],
   [("abc123", ⟨"abc123", [], [], [], ["abc456"]⟩),
    ("abc456", ⟨"abc456", ["abc123"], [], [], []⟩)],
   [], ["abc456"], ["abc123"]⟩

/-- `abcMap` is what the build produces. -/
theorem abcMap_build :
    (build_revision_map
      [Revision.make "abc123" [] [], Revision.make "abc456" ["abc123"] []] 8).2 =
      .ok abcMap := rfl

/-- C6: resolving a bare id string that is not an exact key of the map
falls back to the prefix search over the known keys: zero candidates is a
resolution error; exactly one returns that revision; more than one is a
resolution error carrying the request string and the first three
candidates (the message appends the ellipsis marker after them). -/
theorem C6_bare_id_prefix_resolution (m : RevisionMap) (s : String)
    (hmiss : m.lookupKey (some s) = none) :
    (candidate_keys m s = [] →
      ∀ fuel, revision_for_ident m (some s) none fuel = .error (.resolutionNone s)) ∧
    (∀ r rv, candidate_keys m s = [r] → m.lookupKey (some r) = some rv →
      ∀ fuel, revision_for_ident m (some s) none fuel = .ok rv) ∧
    (∀ x y rest, candidate_keys m s = x :: y :: rest →
      ∀ fuel, revision_for_ident m (some s) none fuel =
        .error (.resolutionAmbiguous s ((x :: y :: rest).take 3))) := by
  refine ⟨?_, ?_, ?_⟩
  · intro hc fuel
    simp [revision_for_ident, truthyOpt, hmiss, hc]
  · intro r rv hc hr fuel
    simp [revision_for_ident, truthyOpt, hmiss, hc, hr]
  · intro x y rest hc fuel
    simp [revision_for_ident, truthyOpt, hmiss, hc]

/-- Witness for C6: with ids `"abc123"` and `"abc456"`, the prefix
`"abc"` is ambiguous and the error lists both candidates. -/
theorem C6_bare_id_prefix_resolution_witness :
    revision_for_ident abcMap (some "abc") none 8 =
      .error (.resolutionAmbiguous "abc" ["abc123", "abc456"]) :=
  (C6_bare_id_prefix_resolution abcMap "abc" rfl).2.2 "abc123" "abc456" [] rfl 8

/- ------------------------------------------------------------------ C7 -/

/-- The map built from base `"a"` with the two children `"b"`, `"c"`. -/
def twoHeadsMap : RevisionMap :=
  ⟨["a", "b", "c"],
   [("a", ⟨"a", [], [], [], ["b", "c"]⟩),
    ("b", ⟨"b", ["a"], [], [], []⟩),
    ("c", ⟨"c", ["a"], [], [], []⟩)],
   [], ["b", "c"], ["a"]⟩

/-- `twoHeadsMap` is what the build produces. -/
theorem twoHeadsMap_build :
    (build_revision_map
      [Revision.make "a" [] [], Revision.make "b" ["a"] [],
       Revision.make "c" ["a"] []] 8).2 = .ok twoHeadsMap := rfl

/-- C7: `get_current_head` (the resolver of `"head"`), with the heads
optionally restricted to the given branch's lineage: more than one
qualifying head raises `MultipleHeads` naming all candidates and the
original request string, exactly one returns it, and none returns no
revision. -/
theorem C7_current_head_cases (m : RevisionMap) (branch_label : Option String)
    (f : Nat) (ch : List String)
    (hch : (if truthyOpt branch_label then filter_for_lineage m m.heads branch_label f
            else pure m.heads) = .ok ch) :
    (1 < ch.length →
      get_current_head m branch_label (f + 1) =
        .error (.multipleHeads ch (head_argument branch_label))) ∧
    (∀ h, ch = [h] → get_current_head m branch_label (f + 1) = .ok (some h)) ∧
    (ch = [] → get_current_head m branch_label (f + 1) = .ok none) := by
  refine ⟨?_, ?_, ?_⟩
  · intro hlen
    rcases Bool.eq_false_or_eq_true (truthyOpt branch_label) with htb | htb
    · rw [if_pos htb] at hch
      simp only [get_current_head, htb, eq_self_iff_true, if_true, hch, except_bind_ok]
      simp [hlen]
    · rw [if_neg (by simp [htb])] at hch
      have hh : m.heads = ch := by simpa using hch
      simp only [get_current_head, htb, Bool.false_eq_true, if_false,
        except_bind_pure_ok, hh]
      simp [hlen]
  · intro h hh
    subst hh
    rcases Bool.eq_false_or_eq_true (truthyOpt branch_label) with htb | htb
    · rw [if_pos htb] at hch
      simp only [get_current_head, htb, eq_self_iff_true, if_true, hch, except_bind_ok]
      rfl
    · rw [if_neg (by simp [htb])] at hch
      have hh : m.heads = [h] := by simpa using hch
      simp only [get_current_head, htb, Bool.false_eq_true, if_false,
        except_bind_pure_ok, hh]
      rfl
  · intro hh
    subst hh
    rcases Bool.eq_false_or_eq_true (truthyOpt branch_label) with htb | htb
    · rw [if_pos htb] at hch
      simp only [get_current_head, htb, eq_self_iff_true, if_true, hch, except_bind_ok]
      rfl
    · rw [if_neg (by simp [htb])] at hch
      have hh : m.heads = [] := by simpa using hch
      simp only [get_current_head, htb, Bool.false_eq_true, if_false,
        except_bind_pure_ok, hh]
      rfl

/-- Witness for C7: the two-headed map raises `MultipleHeads` naming
`"b"`, `"c"` and the request `"head"`. -/
theorem C7_current_head_cases_witness :
    get_current_head twoHeadsMap none 8 =
      .error (.multipleHeads ["b", "c"] "head") :=
  (C7_current_head_cases twoHeadsMap none 7 ["b", "c"] rfl).1 (by decide)

/- ------------------------------------------------------------------ C8 -/

/-- C8: whenever the resolved bounds produce an inclusive upper ancestor
closure and an inclusive lower descendant closure whose id sets do not
intersect, `_iterate_revisions` raises the `RangeNotAncestorError`
naming both bounds. -/
theorem C8_empty_total_space_not_ancestor (m : RevisionMap)
    (upper lower : Option String) (inclusive implicit_base : Bool) (fuel : Nat)
    (rls ups : List (Option Revision)) (upsR ua lwsR lds : List Revision)
    (lws : List (Option Revision))
    (h1 : get_revisions_one m lower fuel = .ok rls)
    (h2 : get_revisions_one m upper fuel = .ok ups)
    (h3 : denullList ups = .ok upsR)
    (h4 : get_ancestor_nodes m upsR true fuel = .ok ua)
    (h5 : compute_lowers m ua rls lower implicit_base fuel = .ok lws)
    (h6 : denullList lws = .ok lwsR)
    (h7 : get_descendant_nodes m lwsR true fuel = .ok lds)
    (hempty : ((ua.map Revision.revision).dedup).filter
      (fun x => (lds.map Revision.revision).contains x) = []) :
    iterate_revisions_inner m upper lower inclusive implicit_base fuel =
      .error (.rangeNotAncestor lower upper) := by
  rw [iterate_revisions_inner, h1]
  simp only [except_bind_ok]
  rw [h2]
  simp only [except_bind_ok]
  rw [h3]
  simp only [except_bind_ok]
  rw [h4]
  simp only [except_bind_ok]
  rw [h5]
  simp only [except_bind_ok]
  rw [h6]
  simp only [except_bind_ok]
  rw [h7]
  simp only [except_bind_ok]
  rw [hempty]
  rfl

/-- The map built from the two unrelated bases `"a"` and `"z"`. -/
def disjointMap : RevisionMap :=
  ⟨["a", "z"],
   [("a", ⟨"a", [], [], [], []⟩), ("z", ⟨"z", [], [], [], []⟩)],
   [], ["a", "z"], ["a", "z"]⟩

/-- `disjointMap` is what the build produces. -/
theorem disjointMap_build :
    (build_revision_map [Revision.make "a" [] [], Revision.make "z" [] []] 8).2 =
      .ok disjointMap := rfl

/-- Witness for C8: `"z"` is not an ancestor of `"a"`, so the range
request fails naming both bounds. -/
theorem C8_empty_total_space_not_ancestor_witness :
    iterate_revisions_inner disjointMap (some "a") (some "z") true false 8 =
      .error (.rangeNotAncestor (some "z") (some "a")) :=
  C8_empty_total_space_not_ancestor disjointMap (some "a") (some "z") true false 8
    [some ⟨"z", [], [], [], []⟩] [some ⟨"a", [], [], [], []⟩]
    [⟨"a", [], [], [], []⟩] [⟨"a", [], [], [], []⟩] [⟨"z", [], [], [], []⟩]
    [⟨"z", [], [], [], []⟩] [some ⟨"z", [], [], [], []⟩]
    rfl rfl rfl rfl rfl rfl rfl rfl

/- ----------------------------------------------------------------- C10 -/

/-- Congruence for `Except` binds whose continuations agree on the
successful value. -/
theorem except_bind_congr {α β : Type} (x : Except RevErr α)
    (f g : α → Except RevErr β) (h : ∀ a, x = .ok a → f a = g a) :
    (x >>= f) = (x >>= g) := by
  cases x with
  | ok a => simpa using h a rfl
  | error e => rfl

/-- With no explicitly requested lowers, the traversal queue never skips
a node, so the `inclusive` flag is irrelevant. -/
theorem iter_loop_nil_lowers (m : RevisionMap) (ts be : List String) (i : Bool) :
    ∀ fuel todo stop, iter_loop m ts be [] i fuel todo stop =
      iter_loop m ts be [] true fuel todo stop := by
  intro fuel
  induction fuel with
  | zero => intro todo stop; cases todo <;> rfl
  | succ f ih =>
    intro todo stop
    cases todo with
    | nil => rfl
    | cons rev rest => simp [iter_loop, ih]

/-- C10: with `lower="base"` or `lower=None` the lower identifier
resolves to zero explicit revisions, and `_iterate_revisions` then
yields the same sequence whether or not the range is exclusive — the
boundary (base) revisions are not skipped, because the exclusive-range
skip applies only to revisions resolved from the lower argument. -/
theorem C10_exclusive_skip_only_requested_lowers (m : RevisionMap)
    (upper lower : Option String) (implicit_base : Bool) (fuel : Nat)
    (hl : lower = some "base" ∨ lower = none) :
    (0 < fuel → get_revisions_one m lower fuel = .ok []) ∧
    iterate_revisions_inner m upper lower false implicit_base fuel =
      iterate_revisions_inner m upper lower true implicit_base fuel := by
  have hok : 0 < fuel → get_revisions_one m lower fuel = .ok [] := by
    intro hf
    obtain ⟨f, rfl⟩ : ∃ f, fuel = f + 1 := ⟨fuel - 1, by omega⟩
    have e1 : strHasAt "base" = false := rfl
    rcases hl with rfl | rfl <;>
      simp [get_revisions_one, resolve_revision_number, e1, idents_lookup, truthyOpt]
  refine ⟨hok, ?_⟩
  rw [iterate_revisions_inner, iterate_revisions_inner]
  apply except_bind_congr
  intro rls hrls
  have hnil : rls = [] := by
    rcases Nat.eq_zero_or_pos fuel with hf | hf
    · subst hf
      rw [show get_revisions_one m lower 0 =
            (.error .outOfFuel : Except RevErr (List (Option Revision))) from ?_] at hrls
      · exact absurd hrls (by simp)
      · rcases hl with rfl | rfl <;> rfl
    · rw [hok hf] at hrls
      exact (Except.ok.inj hrls).symm
  subst hnil
  simp only [iter_loop_nil_lowers]

/-- Witness for C10 at the concrete three-node chain. -/
theorem C10_exclusive_skip_only_requested_lowers_witness :
    (0 < 8 → get_revisions_one (chainMap3 "a" "b" "c") (some "base") 8 = .ok []) ∧
    iterate_revisions_inner (chainMap3 "a" "b" "c") (some "head") (some "base")
        false false 8 =
      iterate_revisions_inner (chainMap3 "a" "b" "c") (some "head") (some "base")
        true false 8 :=
  C10_exclusive_skip_only_requested_lowers (chainMap3 "a" "b" "c") (some "head")
    (some "base") false 8 (Or.inl rfl)


/- ------------------------------------------------------------------ C3 -/

/-- The map built over the linear five-node chain `v ← w ← x ← y ← z`. -/
def chainMap5 (v w x y z : String) : RevisionMap :=
  ⟨[v, w, x, y, z],
   [(v, ⟨v, [], [], [], [w]⟩), (w, ⟨w, [v], [], [], [x]⟩), (x, ⟨x, [w], [], [], [y]⟩),
    (y, ⟨y, [x], [], [], [z]⟩), (z, ⟨z, [y], [], [], []⟩)],
   [], [z], [v]⟩

section C3
variable {v w x y z : String}

theorem chain5_build (hvw : v ≠ w) (hvx : v ≠ x) (hvy : v ≠ y) (hvz : v ≠ z)
    (hwx : w ≠ x) (hwy : w ≠ y) (hwz : w ≠ z) (hxy : x ≠ y) (hxz : x ≠ z)
    (hyz : y ≠ z) :
    (build_revision_map
      [Revision.make v [] [], Revision.make w [v] [], Revision.make x [w] [],
       Revision.make y [x] [], Revision.make z [y] []] 8).2 =
      .ok (chainMap5 v w x y z) := by
  simp [build_revision_map, insertIntoMap, linkDownrevs, linkOne, branchesPhase,
    RevisionMap.node?, RevisionMap.updateNode, Revision.make, Revision.is_base,
    emptyMap, addUnique, listUnion, Revision.add_nextrev, List.erase, chainMap5,
    hvw, hvx, hvy, hvz, hwx, hwy, hwz, hxy, hxz, hyz,
    Ne.symm hvw, Ne.symm hvx, Ne.symm hvy, Ne.symm hvz, Ne.symm hwx,
    Ne.symm hwy, Ne.symm hwz, Ne.symm hxy, Ne.symm hxz, Ne.symm hyz]

theorem chain5_lowers :
    get_revisions_one (chainMap5 v w x y z) (some "base") 8 = .ok [] := by
  simp [get_revisions_one, resolve_revision_number, strHasAt, truthyOpt, idents_lookup]

theorem chain5_uppers (hvz : v ≠ z) (hwz : w ≠ z) (hxz : x ≠ z) (hyz : y ≠ z) :
    get_revisions_one (chainMap5 v w x y z) (some "head") 8 =
      .ok [some ⟨z, [y], [], [], []⟩] := by
  simp [get_revisions_one, resolve_revision_number, strHasAt, truthyOpt, chainMap5,
    get_current_head, idents_lookup, revision_for_ident, RevisionMap.lookupKey,
    RevisionMap.node?, hvz, hwz, hxz, hyz, Ne.symm hvz, Ne.symm hwz, Ne.symm hxz,
    Ne.symm hyz]

theorem chain5_anc (hvw : v ≠ w) (hvx : v ≠ x) (hvy : v ≠ y)
    (hwx : w ≠ x) (hwy : w ≠ y) (hxy : x ≠ y) :
    get_ancestor_nodes (chainMap5 v w x y z) [⟨z, [y], [], [], []⟩] true 8 =
      .ok [⟨z, [y], [], [], []⟩, ⟨y, [x], [], [], [z]⟩, ⟨x, [w], [], [], [y]⟩,
           ⟨w, [v], [], [], [x]⟩, ⟨v, [], [], [], [w]⟩] := by
  simp [get_ancestor_nodes, iterate_related_revisions, relatedAux, drain, nodesOf,
    lookupRev, RevisionMap.lookupKey, RevisionMap.node?, downFn, chainMap5,
    hvw, hvx, hvy, hwx, hwy, hxy,
    Ne.symm hvw, Ne.symm hvx, Ne.symm hvy, Ne.symm hwx, Ne.symm hwy, Ne.symm hxy]

theorem chain5_desc (hvw : v ≠ w) (hvx : v ≠ x) (hvy : v ≠ y) (hvz : v ≠ z)
    (hwx : w ≠ x) (hwy : w ≠ y) (hwz : w ≠ z) (hxy : x ≠ y) (hxz : x ≠ z)
    (hyz : y ≠ z) :
    get_descendant_nodes (chainMap5 v w x y z) [⟨v, [], [], [], [w]⟩] true 8 =
      .ok [⟨v, [], [], [], [w]⟩, ⟨w, [v], [], [], [x]⟩, ⟨x, [w], [], [], [y]⟩,
           ⟨y, [x], [], [], [z]⟩, ⟨z, [y], [], [], []⟩] := by
  simp [get_descendant_nodes, iterate_related_revisions, relatedAux, drain, nodesOf,
    lookupRev, RevisionMap.lookupKey, RevisionMap.node?, nextFn, chainMap5,
    hvw, hvx, hvy, hvz, hwx, hwy, hwz, hxy, hxz, hyz,
    Ne.symm hvw, Ne.symm hvx, Ne.symm hvy, Ne.symm hvz, Ne.symm hwx,
    Ne.symm hwy, Ne.symm hwz, Ne.symm hxy, Ne.symm hxz, Ne.symm hyz]

theorem chain5_clow (hv : plainId v) :
    compute_lowers (chainMap5 v w x y z)
      [⟨z, [y], [], [], []⟩, ⟨y, [x], [], [], [z]⟩, ⟨x, [w], [], [], [y]⟩,
       ⟨w, [v], [], [], [x]⟩, ⟨v, [], [], [], [w]⟩]
      [] (some "base") false 8 = .ok [some ⟨v, [], [], [], [w]⟩] := by
  obtain ⟨hv1, hv2, hv3, hv4⟩ := hv
  have h1 : strEnds "base" "@base" = false := rfl
  simp [compute_lowers, h1, get_revisions_many, get_revisions, get_revisions_one,
    resolve_revision_number, strHasAt, truthyOpt, idents_lookup, revision_for_ident,
    RevisionMap.lookupKey, RevisionMap.node?, chainMap5, hv1, hv2, hv3, hv4]

set_option maxHeartbeats 2000000 in
theorem chain5_iter (hvw : v ≠ w) (hvx : v ≠ x) (hvy : v ≠ y) (hvz : v ≠ z)
    (hwx : w ≠ x) (hwy : w ≠ y) (hwz : w ≠ z) (hxy : x ≠ y) (hxz : x ≠ z)
    (hyz : y ≠ z) (hv : plainId v) :
    iterate_revisions_inner (chainMap5 v w x y z) (some "head") (some "base")
        false false 8 =
      .ok [⟨z, [y], [], [], []⟩, ⟨y, [x], [], [], [z]⟩, ⟨x, [w], [], [], [y]⟩,
           ⟨w, [v], [], [], [x]⟩, ⟨v, [], [], [], [w]⟩] := by
  rw [iterate_revisions_inner, chain5_lowers, chain5_uppers hvz hwz hxz hyz]
  simp only [except_bind_ok, except_bindf_ok]
  rw [show denullList [some (⟨z, [y], [], [], []⟩ : Revision)] =
      .ok [⟨z, [y], [], [], []⟩] from rfl]
  simp only [except_bind_ok, except_bindf_ok]
  rw [chain5_anc hvw hvx hvy hwx hwy hxy]
  simp only [except_bind_ok, except_bindf_ok]
  rw [chain5_clow hv]
  simp only [except_bind_ok, except_bindf_ok]
  rw [show denullList [some (⟨v, [], [], [], [w]⟩ : Revision)] =
      .ok [⟨v, [], [], [], [w]⟩] from rfl]
  simp only [except_bind_ok, except_bindf_ok]
  rw [chain5_desc hvw hvx hvy hvz hwx hwy hwz hxy hxz hyz]
  simp only [except_bind_ok, except_bindf_ok]
  have hts : (((([⟨z, [y], [], [], []⟩, ⟨y, [x], [], [], [z]⟩, ⟨x, [w], [], [], [y]⟩,
      ⟨w, [v], [], [], [x]⟩, ⟨v, [], [], [], [w]⟩] : List Revision).map
        Revision.revision).dedup).filter
      (fun t => (([⟨v, [], [], [], [w]⟩, ⟨w, [v], [], [], [x]⟩, ⟨x, [w], [], [], [y]⟩,
        ⟨y, [x], [], [], [z]⟩, ⟨z, [y], [], [], []⟩] : List Revision).map
          Revision.revision).contains t)) = [z, y, x, w, v] := by
    simp [hvw, hvx, hvy, hvz, hwx, hwy, hwz, hxy, hxz, hyz,
      Ne.symm hvw, Ne.symm hvx, Ne.symm hvy, Ne.symm hvz, Ne.symm hwx,
      Ne.symm hwy, Ne.symm hwz, Ne.symm hxy, Ne.symm hxz, Ne.symm hyz]
  rw [hts]
  simp [chainMap5, RevisionMap.node?, Revision.is_branch_point, iter_loop, listUnion,
    nodesOf, lookupRev, RevisionMap.lookupKey, addUnique,
    hvw, hvx, hvy, hvz, hwx, hwy, hwz, hxy, hxz, hyz,
    Ne.symm hvw, Ne.symm hvx, Ne.symm hvy, Ne.symm hvz, Ne.symm hwx,
    Ne.symm hwy, Ne.symm hwz, Ne.symm hxy, Ne.symm hxz, Ne.symm hyz]

end C3


/-- C3 counterexample: on the concrete five-node chain `r1 ← … ← r5`,
`iterate_revisions(upper="+2", lower="base", inclusive=False)` yields
`[r2, r1]` — the two revisions nearest the base — and not the two
nearest the head (`[r5, r4]`), contradicting the claim as stated. -/
theorem C3_two_nearest_head_counterexample :
    ((build_revision_map
      [Revision.make "r1" [] [], Revision.make "r2" ["r1"] [],
       Revision.make "r3" ["r2"] [], Revision.make "r4" ["r3"] [],
       Revision.make "r5" ["r4"] []] 8).2.bind (fun mr =>
      iterate_revisions mr (some "+2") (some "base") false false 8)).map
      (fun l => l.map Revision.revision) = .ok ["r2", "r1"] ∧
    ¬ (((build_revision_map
      [Revision.make "r1" [] [], Revision.make "r2" ["r1"] [],
       Revision.make "r3" ["r2"] [], Revision.make "r4" ["r3"] [],
       Revision.make "r5" ["r4"] []] 8).2.bind (fun mr =>
      iterate_revisions mr (some "+2") (some "base") false false 8)).map
      (fun l => l.map Revision.revision) = .ok ["r5", "r4"]) := by
  refine ⟨rfl, fun h => ?_⟩
  rw [show ((build_revision_map
      [Revision.make "r1" [] [], Revision.make "r2" ["r1"] [],
       Revision.make "r3" ["r2"] [], Revision.make "r4" ["r3"] [],
       Revision.make "r5" ["r4"] []] 8).2.bind (fun mr =>
      iterate_revisions mr (some "+2") (some "base") false false 8)).map
      (fun l => l.map Revision.revision) = .ok ["r2", "r1"] from rfl] at h
  exact absurd (Except.ok.inj h) (by decide)

/-- C3 (amended): for every map built over a linear five-node chain of
distinct ordinary ids, `iterate_revisions(upper="+2", lower="base",
inclusive=False)` yields exactly 2 revisions, the 2 nearest the base
(in upper-to-lower order `[w, v]`); and `upper="+10"` raises the
relative-count `RevisionError` because the produced range's length does
not equal the requested magnitude. -/
theorem C3_relative_upper_counts (v w x y z : String)
    (hvw : v ≠ w) (hvx : v ≠ x) (hvy : v ≠ y) (hvz : v ≠ z)
    (hwx : w ≠ x) (hwy : w ≠ y) (hwz : w ≠ z) (hxy : x ≠ y) (hxz : x ≠ z)
    (hyz : y ≠ z) (hv : plainId v) :
    ((build_revision_map
      [Revision.make v [] [], Revision.make w [v] [], Revision.make x [w] [],
       Revision.make y [x] [], Revision.make z [y] []] 8).2.bind (fun mr =>
      iterate_revisions mr (some "+2") (some "base") false false 8)).map
      (fun l => l.map Revision.revision) = .ok [w, v] ∧
    (build_revision_map
      [Revision.make v [] [], Revision.make w [v] [], Revision.make x [w] [],
       Revision.make y [x] [], Revision.make z [y] []] 8).2.bind (fun mr =>
      iterate_revisions mr (some "+10") (some "base") false false 8) =
      .error (.relativeNotProduced "+10" 10) := by
  have hb := chain5_build hvw hvx hvy hvz hwx hwy hwz hxy hxz hyz
  have hi := chain5_iter hvw hvx hvy hvz hwx hwy hwz hxy hxz hyz hv
  have hr2 : relativeMatch "+2" = some (none, 2) := rfl
  have hr10 : relativeMatch "+10" = some (none, 10) := rfl
  constructor
  · rw [hb]
    simp only [except_bindf_ok, iterate_revisions, hr2]
    rw [hi]
    simp only [except_bind_ok, except_bind_pure_ok]
    norm_num [pySliceFrom]
    rfl
  · rw [hb]
    simp only [except_bindf_ok, iterate_revisions, hr10]
    rw [hi]
    simp only [except_bind_ok, except_bind_pure_ok]
    norm_num [pySliceFrom]

/-- Witness for the amended C3 at the concrete chain `r1 ← … ← r5`. -/
theorem C3_relative_upper_counts_witness :
    ((build_revision_map
      [Revision.make "r1" [] [], Revision.make "r2" ["r1"] [],
       Revision.make "r3" ["r2"] [], Revision.make "r4" ["r3"] [],
       Revision.make "r5" ["r4"] []] 8).2.bind (fun mr =>
      iterate_revisions mr (some "+2") (some "base") false false 8)).map
      (fun l => l.map Revision.revision) = .ok ["r2", "r1"] ∧
    (build_revision_map
      [Revision.make "r1" [] [], Revision.make "r2" ["r1"] [],
       Revision.make "r3" ["r2"] [], Revision.make "r4" ["r3"] [],
       Revision.make "r5" ["r4"] []] 8).2.bind (fun mr =>
      iterate_revisions mr (some "+10") (some "base") false false 8) =
      .error (.relativeNotProduced "+10" 10) :=
  C3_relative_upper_counts "r1" "r2" "r3" "r4" "r5"
    (by decide) (by decide) (by decide) (by decide) (by decide) (by decide)
    (by decide) (by decide) (by decide) (by decide)
    ⟨by decide, by decide, by decide, by decide⟩


/- ------------------------------------------------------------------ C4 -/

/-- The map built over the fork/merge shape `b ← p`, `p ← x`, `p ← y`,
`q` merging `x` and `y`. -/
def forkMap (b p x y q : String) : RevisionMap :=
  ⟨[b, p, x, y, q],
   [(b, ⟨b, [], [], [], [p]⟩), (p, ⟨p, [b], [], [], [x, y]⟩),
    (x, ⟨x, [p], [], [], [q]⟩), (y, ⟨y, [p], [], [], [q]⟩),
    (q, ⟨q, [x, y], [], [], []⟩)],
   [], [q], [b]⟩

section C4
variable {b p x y q : String}

theorem fork_build (hbp : b ≠ p) (hbx : b ≠ x) (hby : b ≠ y) (hbq : b ≠ q)
    (hpx : p ≠ x) (hpy : p ≠ y) (hpq : p ≠ q) (hxy : x ≠ y) (hxq : x ≠ q)
    (hyq : y ≠ q) :
    (build_revision_map
      [Revision.make b [] [], Revision.make p [b] [], Revision.make x [p] [],
       Revision.make y [p] [], Revision.make q [x, y] []] 8).2 =
      .ok (forkMap b p x y q) := by
  simp [build_revision_map, insertIntoMap, linkDownrevs, linkOne, branchesPhase,
    RevisionMap.node?, RevisionMap.updateNode, Revision.make, Revision.is_base,
    emptyMap, addUnique, listUnion, Revision.add_nextrev, forkMap,
    hbp, hbx, hby, hbq, hpx, hpy, hpq, hxy, hxq, hyq,
    Ne.symm hbp, Ne.symm hbx, Ne.symm hby, Ne.symm hbq, Ne.symm hpx,
    Ne.symm hpy, Ne.symm hpq, Ne.symm hxy, Ne.symm hxq, Ne.symm hyq]

theorem fork_lowers :
    get_revisions_one (forkMap b p x y q) (some "base") 8 = .ok [] := by
  simp [get_revisions_one, resolve_revision_number, strHasAt, truthyOpt, idents_lookup]

theorem fork_uppers (hbq : b ≠ q) (hpq : p ≠ q) (hxq : x ≠ q) (hyq : y ≠ q)
    (hq : plainId q) :
    get_revisions_one (forkMap b p x y q) (some q) 8 =
      .ok [some ⟨q, [x, y], [], [], []⟩] := by
  obtain ⟨hq1, hq2, hq3, hq4⟩ := hq
  simp [get_revisions_one, resolve_revision_number, strHasAt, truthyOpt, forkMap,
    idents_lookup, revision_for_ident, RevisionMap.lookupKey, RevisionMap.node?,
    hq1, hq2, hq3, hq4, hbq, hpq, hxq, hyq,
    Ne.symm hbq, Ne.symm hpq, Ne.symm hxq, Ne.symm hyq]

theorem fork_anc (hbp : b ≠ p) (hbx : b ≠ x) (hby : b ≠ y)
    (hpx : p ≠ x) (hpy : p ≠ y) (hxy : x ≠ y) :
    get_ancestor_nodes (forkMap b p x y q) [⟨q, [x, y], [], [], []⟩] true 8 =
      .ok [⟨q, [x, y], [], [], []⟩, ⟨y, [p], [], [], [q]⟩, ⟨p, [b], [], [], [x, y]⟩,
           ⟨b, [], [], [], [p]⟩, ⟨x, [p], [], [], [q]⟩, ⟨p, [b], [], [], [x, y]⟩,
           ⟨b, [], [], [], [p]⟩] := by
  simp [get_ancestor_nodes, iterate_related_revisions, relatedAux, drain, nodesOf,
    lookupRev, RevisionMap.lookupKey, RevisionMap.node?, downFn, forkMap,
    hbp, hbx, hby, hpx, hpy, hxy,
    Ne.symm hbp, Ne.symm hbx, Ne.symm hby, Ne.symm hpx, Ne.symm hpy, Ne.symm hxy]

theorem fork_desc (hbp : b ≠ p) (hbx : b ≠ x) (hby : b ≠ y) (hbq : b ≠ q)
    (hpx : p ≠ x) (hpy : p ≠ y) (hpq : p ≠ q) (hxy : x ≠ y) (hxq : x ≠ q)
    (hyq : y ≠ q) :
    get_descendant_nodes (forkMap b p x y q) [⟨b, [], [], [], [p]⟩] true 8 =
      .ok [⟨b, [], [], [], [p]⟩, ⟨p, [b], [], [], [x, y]⟩, ⟨y, [p], [], [], [q]⟩,
           ⟨q, [x, y], [], [], []⟩, ⟨x, [p], [], [], [q]⟩,
           ⟨q, [x, y], [], [], []⟩] := by
  simp [get_descendant_nodes, iterate_related_revisions, relatedAux, drain, nodesOf,
    lookupRev, RevisionMap.lookupKey, RevisionMap.node?, nextFn, forkMap,
    hbp, hbx, hby, hbq, hpx, hpy, hpq, hxy, hxq, hyq,
    Ne.symm hbp, Ne.symm hbx, Ne.symm hby, Ne.symm hbq, Ne.symm hpx,
    Ne.symm hpy, Ne.symm hpq, Ne.symm hxy, Ne.symm hxq, Ne.symm hyq]

theorem fork_clow (hb : plainId b) :
    compute_lowers (forkMap b p x y q)
      [⟨q, [x, y], [], [], []⟩, ⟨y, [p], [], [], [q]⟩, ⟨p, [b], [], [], [x, y]⟩,
       ⟨b, [], [], [], [p]⟩, ⟨x, [p], [], [], [q]⟩, ⟨p, [b], [], [], [x, y]⟩,
       ⟨b, [], [], [], [p]⟩]
      [] (some "base") false 8 = .ok [some ⟨b, [], [], [], [p]⟩] := by
  obtain ⟨hb1, hb2, hb3, hb4⟩ := hb
  have h1 : strEnds "base" "@base" = false := rfl
  simp [compute_lowers, h1, get_revisions_many, get_revisions, get_revisions_one,
    resolve_revision_number, strHasAt, truthyOpt, idents_lookup, revision_for_ident,
    RevisionMap.lookupKey, RevisionMap.node?, forkMap, hb1, hb2, hb3, hb4]

set_option maxHeartbeats 2000000 in
theorem fork_iter (hbp : b ≠ p) (hbx : b ≠ x) (hby : b ≠ y) (hbq : b ≠ q)
    (hpx : p ≠ x) (hpy : p ≠ y) (hpq : p ≠ q) (hxy : x ≠ y) (hxq : x ≠ q)
    (hyq : y ≠ q) (hb : plainId b) (hq : plainId q) :
    iterate_revisions_inner (forkMap b p x y q) (some q) (some "base")
        true false 8 =
      .ok [⟨q, [x, y], [], [], []⟩, ⟨x, [p], [], [], [q]⟩, ⟨y, [p], [], [], [q]⟩,
           ⟨p, [b], [], [], [x, y]⟩, ⟨b, [], [], [], [p]⟩] := by
  rw [iterate_revisions_inner, fork_lowers, fork_uppers hbq hpq hxq hyq hq]
  simp only [except_bind_ok, except_bindf_ok]
  rw [show denullList [some (⟨q, [x, y], [], [], []⟩ : Revision)] =
      .ok [⟨q, [x, y], [], [], []⟩] from rfl]
  simp only [except_bind_ok, except_bindf_ok]
  rw [fork_anc hbp hbx hby hpx hpy hxy]
  simp only [except_bind_ok, except_bindf_ok]
  rw [fork_clow hb]
  simp only [except_bind_ok, except_bindf_ok]
  rw [show denullList [some (⟨b, [], [], [], [p]⟩ : Revision)] =
      .ok [⟨b, [], [], [], [p]⟩] from rfl]
  simp only [except_bind_ok, except_bindf_ok]
  rw [fork_desc hbp hbx hby hbq hpx hpy hpq hxy hxq hyq]
  simp only [except_bind_ok, except_bindf_ok]
  have hts : (((([⟨q, [x, y], [], [], []⟩, ⟨y, [p], [], [], [q]⟩,
      ⟨p, [b], [], [], [x, y]⟩, ⟨b, [], [], [], [p]⟩, ⟨x, [p], [], [], [q]⟩,
      ⟨p, [b], [], [], [x, y]⟩, ⟨b, [], [], [], [p]⟩] : List Revision).map
        Revision.revision).dedup).filter
      (fun t => (([⟨b, [], [], [], [p]⟩, ⟨p, [b], [], [], [x, y]⟩,
        ⟨y, [p], [], [], [q]⟩, ⟨q, [x, y], [], [], []⟩, ⟨x, [p], [], [], [q]⟩,
        ⟨q, [x, y], [], [], []⟩] : List Revision).map
          Revision.revision).contains t)) = [q, y, x, p, b] := by
    simp [hbp, hbx, hby, hbq, hpx, hpy, hpq, hxy, hxq, hyq,
      Ne.symm hbp, Ne.symm hbx, Ne.symm hby, Ne.symm hbq, Ne.symm hpx,
      Ne.symm hpy, Ne.symm hpq, Ne.symm hxy, Ne.symm hxq, Ne.symm hyq]
  rw [hts]
  simp [forkMap, RevisionMap.node?, Revision.is_branch_point, iter_loop, listUnion,
    nodesOf, lookupRev, RevisionMap.lookupKey, addUnique,
    hbp, hbx, hby, hbq, hpx, hpy, hpq, hxy, hxq, hyq,
    Ne.symm hbp, Ne.symm hbx, Ne.symm hby, Ne.symm hbq, Ne.symm hpx,
    Ne.symm hpy, Ne.symm hpq, Ne.symm hxy, Ne.symm hxq, Ne.symm hyq]

end C4


/-- C4 counterexample: on the concrete fork/merge map (`r ← p`, `p ← x`,
`p ← y`, `mm` merging `x` and `y`), the inclusive range from the merge
node `mm` down to base is emitted as `[mm, x, y, p, r]`: `mm` appears
exactly once but FIRST — the last emitted revision is the base `r`, not
`mm`, contradicting the claim that `M` appears last. -/
theorem C4_merge_last_counterexample :
    ((build_revision_map
      [Revision.make "r" [] [], Revision.make "p" ["r"] [],
       Revision.make "x" ["p"] [], Revision.make "y" ["p"] [],
       Revision.make "mm" ["x", "y"] []] 8).2.bind (fun mr =>
      iterate_revisions mr (some "mm") (some "base") false true 8)).map
      (fun l => l.map Revision.revision) = .ok ["mm", "x", "y", "p", "r"] ∧
    ["mm", "x", "y", "p", "r"].getLast? ≠ some "mm" ∧
    "mm" ∈ ["mm", "x", "y", "p", "r"] := by
  exact ⟨rfl, by decide, by decide⟩

/-- C4 (amended): for a map containing two branch arms converging at the
merge node `M` (parents `X` and `Y`, fork point `P` over base `B`),
`iterate_revisions(upper=M, lower="base", inclusive=True)` includes `X`,
`Y` and all of their ancestors, and `M` appears exactly once and FIRST
in the emitted order (the nodes closest to the base side — the shared
fork ancestor and everything below it — are emitted after both arms). -/
theorem C4_merge_emitted_once_first (b p x y q : String)
    (hbp : b ≠ p) (hbx : b ≠ x) (hby : b ≠ y) (hbq : b ≠ q)
    (hpx : p ≠ x) (hpy : p ≠ y) (hpq : p ≠ q) (hxy : x ≠ y) (hxq : x ≠ q)
    (hyq : y ≠ q) (hb : plainId b) (hq : plainId q)
    (hrel : relativeMatch q = none) :
    ((build_revision_map
      [Revision.make b [] [], Revision.make p [b] [], Revision.make x [p] [],
       Revision.make y [p] [], Revision.make q [x, y] []] 8).2.bind (fun mr =>
      iterate_revisions mr (some q) (some "base") false true 8)).map
      (fun l => l.map Revision.revision) = .ok [q, x, y, p, b] ∧
    [q, x, y, p, b].head? = some q ∧ [q, x, y, p, b].count q = 1 ∧
    x ∈ [q, x, y, p, b] ∧ y ∈ [q, x, y, p, b] ∧
    p ∈ [q, x, y, p, b] ∧ b ∈ [q, x, y, p, b] := by
  have hbld := fork_build hbp hbx hby hbq hpx hpy hpq hxy hxq hyq
  have hit := fork_iter hbp hbx hby hbq hpx hpy hpq hxy hxq hyq hb hq
  have hrb : relativeMatch "base" = none := rfl
  refine ⟨?_, rfl, ?_, by simp, by simp, by simp, by simp⟩
  · rw [hbld]
    simp only [except_bindf_ok, iterate_revisions, hrel, iterate_revisions_lowrel, hrb]
    rw [hit]
    rfl
  · simp [List.count_cons, hxq, hyq, hpq, hbq,
      Ne.symm hxq, Ne.symm hyq, Ne.symm hpq, Ne.symm hbq]

/-- Witness for the amended C4 at the concrete fork/merge map. -/
theorem C4_merge_emitted_once_first_witness :
    ((build_revision_map
      [Revision.make "r" [] [], Revision.make "p" ["r"] [],
       Revision.make "x" ["p"] [], Revision.make "y" ["p"] [],
       Revision.make "mm" ["x", "y"] []] 8).2.bind (fun mr =>
      iterate_revisions mr (some "mm") (some "base") false true 8)).map
      (fun l => l.map Revision.revision) = .ok ["mm", "x", "y", "p", "r"] ∧
    ["mm", "x", "y", "p", "r"].head? = some "mm" ∧
    ["mm", "x", "y", "p", "r"].count "mm" = 1 ∧
    "x" ∈ ["mm", "x", "y", "p", "r"] ∧ "y" ∈ ["mm", "x", "y", "p", "r"] ∧
    "p" ∈ ["mm", "x", "y", "p", "r"] ∧ "r" ∈ ["mm", "x", "y", "p", "r"] :=
  C4_merge_emitted_once_first "r" "p" "x" "y" "mm"
    (by decide) (by decide) (by decide) (by decide) (by decide) (by decide)
    (by decide) (by decide) (by decide) (by decide)
    ⟨by decide, by decide, by decide, by decide⟩
    ⟨by decide, by decide, by decide, by decide⟩ rfl


/- ------------------------------------------------------------------ C9 -/

/-- The ids `r.revision` would gain as children after a full link pass
over `revs` (each linking revision in producer order). -/
def childrenOf (revs : List Revision) (i : String) : List String :=
  (revs.filter (fun r => r.down_revision.contains i)).map Revision.revision

/-- The pure state change of one successful step of `linkOne`: register
the child and discard the parent from `heads`. -/
def linkStep (rid : String) (m : RevisionMap) (d : String) : RevisionMap :=
  let m := m.updateNode d (fun dn => dn.add_nextrev rid)
  { m with heads := m.heads.erase d }

theorem find?_mapKeyed (nodes : List (String × Revision)) (i id : String)
    (f : Revision → Revision) :
    ((nodes.map (fun p => if p.1 == i then (p.1, f p.2) else p)).find?
      (fun p => p.1 == id)) =
      (nodes.find? (fun p => p.1 == id)).map
        (fun p => if p.1 == i then (p.1, f p.2) else p) := by
  induction nodes with
  | nil => rfl
  | cons p rest ih =>
    rw [List.map_cons, List.find?_cons, List.find?_cons]
    have hpred : ((if p.1 == i then (p.1, f p.2) else p).1 == id) = (p.1 == id) := by
      by_cases h : (p.1 == i) = true <;> simp [h]
    rw [hpred]
    cases hpw : (p.1 == id) with
    | true => simp
    | false => simpa using ih

theorem node?_updateNode (m : RevisionMap) (i id : String) (f : Revision → Revision) :
    (m.updateNode i f).node? id =
      (m.node? id).map (fun r => if id = i then f r else r) := by
  unfold RevisionMap.updateNode RevisionMap.node?
  simp only [find?_mapKeyed]
  cases hf : m.nodes.find? (fun p => p.1 == id) with
  | none => rfl
  | some p =>
    have hp : p.1 = id := by simpa using List.find?_some hf
    by_cases hii : id = i
    · simp [hp, hii]
    · simp [hp, hii]

/-- The state after the first build pass over a duplicate-free producer
list: ids, nodes and heads in producer order, bases the parentless ids,
no warnings. -/
theorem phase1_char (revs : List Revision) :
    (revs.map Revision.revision).Nodup →
    revs.foldl insertIntoMap ⟨emptyMap, [], []⟩ =
      ⟨⟨revs.map Revision.revision,
        revs.map (fun r => (r.revision, r)),
        [],
        revs.map Revision.revision,
        (revs.filter (fun r => r.is_base)).map Revision.revision⟩,
       [],
       (revs.filter (fun r => !r.branch_labels.isEmpty)).map Revision.revision⟩ := by
  induction revs using List.reverseRecOn with
  | nil => intro _; rfl
  | append_singleton revs r ih =>
    intro hnd
    have hnd2 : (revs.map Revision.revision ++ [r.revision]).Nodup := by
      simpa using hnd
    have hnd' : (revs.map Revision.revision).Nodup :=
      (List.sublist_append_left _ _).nodup hnd2
    have hmem : r.revision ∉ revs.map Revision.revision := by
      have := List.nodup_append.mp hnd2
      intro hc
      exact (this.2.2 hc (by simp)).elim
    have hfind : (revs.map (fun r => (r.revision, r))).find?
        (fun p => p.1 == r.revision) = none := by
      rw [List.find?_eq_none]
      intro x hx he
      obtain ⟨r2, hr2, rfl⟩ := List.mem_map.mp hx
      have h2 : r2.revision = r.revision := by simpa using he
      exact hmem (h2 ▸ List.mem_map_of_mem Revision.revision hr2)
    rw [List.foldl_append, List.foldl_cons, List.foldl_nil, ih hnd']
    simp only [insertIntoMap, addUnique, RevisionMap.node?, hfind, hmem,
      List.filter_append, List.map_append]
    have hcont : (List.map Revision.revision revs).contains r.revision = false := by
      simpa using hmem
    simp [hcont, List.filter_append]
    constructor <;> split <;> simp_all


theorem add_nextrev_idem (n : Revision) (rid : String) :
    (n.add_nextrev rid).add_nextrev rid = n.add_nextrev rid := by
  unfold Revision.add_nextrev addUnique
  by_cases h : rid ∈ n.nextrev <;> simp [h]

theorem add_nextrev_down (n : Revision) (rid : String) :
    (n.add_nextrev rid).down_revision = n.down_revision := rfl

theorem add_nextrev_rev (n : Revision) (rid : String) :
    (n.add_nextrev rid).revision = n.revision := rfl

theorem node?_linkStep (rid : String) (m : RevisionMap) (d i : String) :
    (linkStep rid m d).node? i =
      (m.node? i).map (fun n => if i = d then n.add_nextrev rid else n) := by
  have h : (linkStep rid m d).node? i = (m.updateNode d (fun dn => dn.add_nextrev rid)).node? i := rfl
  rw [h, node?_updateNode]

theorem heads_linkStep (rid : String) (m : RevisionMap) (d : String) :
    (linkStep rid m d).heads = m.heads.erase d := rfl

/-- The pure effect of the whole link pass. -/
def linkAllPure (revs : List Revision) (m : RevisionMap) : RevisionMap :=
  revs.foldl (fun m r => r.down_revision.foldl (linkStep r.revision) m) m

theorem node?_dsfold (rid : String) :
    ∀ (ds : List String) (m : RevisionMap) (i : String),
    ((ds.foldl (linkStep rid) m).node? i) =
      (m.node? i).map (fun n => if ds.contains i then n.add_nextrev rid else n) := by
  intro ds
  induction ds with
  | nil => intro m i; cases hmi : m.node? i <;> simp [hmi]
  | cons d rest ih =>
    intro m i
    rw [List.foldl_cons, ih, node?_linkStep]
    cases hmi : m.node? i with
    | none => rfl
    | some n =>
      by_cases hid : i = d
      · subst hid
        by_cases hc : rest.contains i <;>
          simp [hc, add_nextrev_idem]
      · by_cases hc : rest.contains i <;>
          simp [hc, hid, Ne.symm hid]

theorem heads_dsfold (rid : String) :
    ∀ (ds : List String) (m : RevisionMap),
    (ds.foldl (linkStep rid) m).heads = ds.foldl List.erase m.heads := by
  intro ds
  induction ds with
  | nil => intro m; rfl
  | cons d rest ih => intro m; rw [List.foldl_cons, ih, heads_linkStep, List.foldl_cons]

theorem misc_linkStep (rid : String) (m : RevisionMap) (d : String) :
    (linkStep rid m d).ids = m.ids ∧ (linkStep rid m d).bases = m.bases ∧
    (linkStep rid m d).aliases = m.aliases := ⟨rfl, rfl, rfl⟩

theorem misc_dsfold (rid : String) :
    ∀ (ds : List String) (m : RevisionMap),
    (ds.foldl (linkStep rid) m).ids = m.ids ∧
    (ds.foldl (linkStep rid) m).bases = m.bases ∧
    (ds.foldl (linkStep rid) m).aliases = m.aliases := by
  intro ds
  induction ds with
  | nil => intro m; exact ⟨rfl, rfl, rfl⟩
  | cons d rest ih => intro m; simpa using ih (linkStep rid m d)

theorem node?_linkAllPure (revsP : List Revision) :
    ∀ (m : RevisionMap) (i : String),
    (linkAllPure revsP m).node? i =
      (m.node? i).map (fun n =>
        revsP.foldl (fun n' r =>
          if r.down_revision.contains i then n'.add_nextrev r.revision else n') n) := by
  induction revsP with
  | nil => intro m i; cases hmi : m.node? i <;> simp [linkAllPure, hmi]
  | cons r rest ih =>
    intro m i
    have h : linkAllPure (r :: rest) m =
        linkAllPure rest (r.down_revision.foldl (linkStep r.revision) m) := rfl
    rw [h, ih, node?_dsfold]
    cases m.node? i with
    | none => rfl
    | some n => by_cases hc : r.down_revision.contains i <;> simp [hc]

theorem heads_linkAllPure (revsP : List Revision) :
    ∀ (m : RevisionMap),
    (linkAllPure revsP m).heads =
      revsP.foldl (fun h r => r.down_revision.foldl List.erase h) m.heads := by
  induction revsP with
  | nil => intro m; rfl
  | cons r rest ih =>
    intro m
    have h : linkAllPure (r :: rest) m =
        linkAllPure rest (r.down_revision.foldl (linkStep r.revision) m) := rfl
    rw [h, ih, heads_dsfold, List.foldl_cons]

theorem misc_linkAllPure (revsP : List Revision) :
    ∀ (m : RevisionMap),
    (linkAllPure revsP m).ids = m.ids ∧ (linkAllPure revsP m).bases = m.bases ∧
    (linkAllPure revsP m).aliases = m.aliases := by
  induction revsP with
  | nil => intro m; exact ⟨rfl, rfl, rfl⟩
  | cons r rest ih =>
    intro m
    have h : ∀ m2, linkAllPure (r :: rest) m2 =
        linkAllPure rest (r.down_revision.foldl (linkStep r.revision) m2) := fun _ => rfl
    rw [h]
    obtain ⟨h1, h2, h3⟩ := ih (r.down_revision.foldl (linkStep r.revision) m)
    obtain ⟨g1, g2, g3⟩ := misc_dsfold r.revision r.down_revision m
    exact ⟨h1.trans g1, h2.trans g2, h3.trans g3⟩

theorem nextrev_foldl (i : String) :
    ∀ (revsP : List Revision) (n : Revision),
    (revsP.map Revision.revision).Nodup →
    (∀ r ∈ revsP, r.revision ∉ n.nextrev) →
    revsP.foldl (fun n' r =>
        if r.down_revision.contains i then n'.add_nextrev r.revision else n') n =
      { n with nextrev := n.nextrev ++ childrenOf revsP i } := by
  intro revsP
  induction revsP with
  | nil => intro n _ _; simp [childrenOf]
  | cons r rest ih =>
    intro n hnd hni
    have hndr : (rest.map Revision.revision).Nodup :=
      (List.nodup_cons.mp (by simpa using hnd)).2
    have hrrest : r.revision ∉ rest.map Revision.revision :=
      (List.nodup_cons.mp (by simpa using hnd)).1
    rw [List.foldl_cons]
    by_cases hc : r.down_revision.contains i
    · have hadd : n.add_nextrev r.revision =
          { n with nextrev := n.nextrev ++ [r.revision] } := by
        unfold Revision.add_nextrev addUnique
        simp [fun h => hni r (by simp) (by simpa using h)]
      rw [hc]
      simp only [if_true]
      rw [hadd, ih _ hndr ?hpre]
      case hpre =>
        intro r2 hr2
        simp only [List.mem_append, List.mem_singleton]
        rintro (h1 | h1)
        · exact hni r2 (by simp [hr2]) h1
        · exact hrrest (h1 ▸ List.mem_map_of_mem Revision.revision hr2)
      have hc' : i ∈ r.down_revision := by simpa using hc
      simp [childrenOf, List.filter_cons, hc']
    · rw [if_neg (by simpa using hc)]
      rw [ih _ hndr (fun r2 hr2 => hni r2 (by simp [hr2]))]
      have hc' : i ∉ r.down_revision := by simpa using hc
      simp [childrenOf, List.filter_cons, hc']

theorem erase_fold_filter :
    ∀ (ds : List String) (l : List String), l.Nodup →
    ds.foldl List.erase l = l.filter (fun s => !(ds.contains s)) := by
  intro ds
  induction ds with
  | nil => intro l _; simp
  | cons d rest ih =>
    intro l hnd
    rw [List.foldl_cons, ih _ (hnd.erase d), hnd.erase_eq_filter, List.filter_filter]
    apply List.filter_congr
    intro x _
    by_cases h1 : x = d <;> by_cases h2 : rest.contains x <;> simp [h1, h2]

theorem heads_erase_char :
    ∀ (revsP : List Revision) (l : List String), l.Nodup →
    revsP.foldl (fun h r => r.down_revision.foldl List.erase h) l =
      l.filter (fun i => !(revsP.any (fun r => r.down_revision.contains i))) := by
  intro revsP
  induction revsP with
  | nil => intro l _; simp
  | cons r rest ih =>
    intro l hnd
    rw [List.foldl_cons, erase_fold_filter _ _ hnd,
      ih _ (hnd.filter _), List.filter_filter]
    apply List.filter_congr
    intro x _
    simp [List.any_cons, Bool.and_comm]

theorem linkOne_ok (rev : Revision) :
    ∀ (ds : List String) (ws ws2 : List BuildWarn) (m m2 : RevisionMap),
    linkOne ws m rev ds = (ws2, .ok m2) →
    ws2 = ws ∧ m2 = ds.foldl (linkStep rev.revision) m := by
  intro ds
  induction ds with
  | nil =>
    intro ws ws2 m m2 h
    injection h with h1 h2
    exact ⟨h1.symm, (Except.ok.inj h2).symm⟩
  | cons d rest ih =>
    intro ws ws2 m m2 h
    rw [linkOne] at h
    cases hnd : m.node? d with
    | none => rw [hnd] at h; simp at h
    | some n =>
      rw [hnd] at h
      simp only [Option.isNone_some, Bool.false_eq_true, if_false] at h
      exact ih ws ws2 _ m2 h

theorem foldl_linkDownrevs_error :
    ∀ (ids : List String) (ws : List BuildWarn) (e : RevErr),
    ids.foldl linkDownrevs (ws, .error e) = (ws, .error e) := by
  intro ids
  induction ids with
  | nil => intro ws e; rfl
  | cons i rest ih => intro ws e; rw [List.foldl_cons]; exact ih ws e

theorem link_fold_ok :
    ∀ (revsT : List Revision) (ws ws2 : List BuildWarn) (m m2 : RevisionMap),
    (∀ r ∈ revsT, ∃ n, m.node? r.revision = some n ∧
      n.down_revision = r.down_revision ∧ n.revision = r.revision) →
    (revsT.map Revision.revision).foldl linkDownrevs (ws, .ok m) = (ws2, .ok m2) →
    ws2 = ws ∧ m2 = linkAllPure revsT m := by
  intro revsT
  induction revsT with
  | nil =>
    intro ws ws2 m m2 _ h
    injection h with h1 h2
    exact ⟨h1.symm, (Except.ok.inj h2).symm⟩
  | cons r rest ih =>
    intro ws ws2 m m2 hpres h
    obtain ⟨n, hn, hdown, hrev⟩ := hpres r (by simp)
    rw [List.map_cons, List.foldl_cons] at h
    rw [show linkDownrevs (ws, .ok m) r.revision = linkOne ws m n n.down_revision by
      rw [linkDownrevs, hn]] at h
    cases hres : linkOne ws m n n.down_revision with
    | mk ws1 r1 =>
      rw [hres] at h
      cases r1 with
      | error e =>
        rw [foldl_linkDownrevs_error] at h
        simp at h
      | ok m1 =>
        obtain ⟨hw1, hm1⟩ := linkOne_ok n n.down_revision ws ws1 m m1 hres
        have hm1' : m1 = r.down_revision.foldl (linkStep r.revision) m := by
          rw [hm1, hdown, hrev]
        have hpres' : ∀ r2 ∈ rest, ∃ n2, m1.node? r2.revision = some n2 ∧
            n2.down_revision = r2.down_revision ∧ n2.revision = r2.revision := by
          intro r2 hr2
          obtain ⟨n2, hn2, hd2, hv2⟩ := hpres r2 (by simp [hr2])
          rw [hm1', node?_dsfold, hn2]
          by_cases hc : r2.revision ∈ r.down_revision
          · exact ⟨n2.add_nextrev r.revision, by simp [hc], by simp [add_nextrev_down, hd2],
              by simp [add_nextrev_rev, hv2]⟩
          · exact ⟨n2, by simp [hc], hd2, hv2⟩
        obtain ⟨hw2, hm2⟩ := ih ws1 ws2 m1 m2 hpres' h
        refine ⟨hw2.trans hw1, ?_⟩
        rw [hm2, hm1']
        rfl

/-- The label pass never changes heads, bases, ids, or any node's
computed children. -/
def samePlumbing (m m' : RevisionMap) : Prop :=
  m'.heads = m.heads ∧ m'.bases = m.bases ∧ m'.ids = m.ids ∧
  ∀ i, (m'.node? i).map (fun n => n.nextrev) = (m.node? i).map (fun n => n.nextrev)

theorem samePlumbing_refl (m : RevisionMap) : samePlumbing m m :=
  ⟨rfl, rfl, rfl, fun _ => rfl⟩

theorem samePlumbing_trans {m1 m2 m3 : RevisionMap}
    (h12 : samePlumbing m1 m2) (h23 : samePlumbing m2 m3) : samePlumbing m1 m3 :=
  ⟨h23.1.trans h12.1, h23.2.1.trans h12.2.1, h23.2.2.1.trans h12.2.2.1,
   fun i => (h23.2.2.2 i).trans (h12.2.2.2 i)⟩

theorem samePlumbing_updateLabels (m : RevisionMap) (j : String) (lbls : List String) :
    samePlumbing m
      (m.updateNode j (fun r => { r with branch_labels := listUnion r.branch_labels lbls })) := by
  refine ⟨rfl, rfl, rfl, fun i => ?_⟩
  rw [node?_updateNode]
  cases m.node? i with
  | none => rfl
  | some n => by_cases h : i = j <;> simp [h]

theorem samePlumbing_applyLabels (lbls : List String) :
    ∀ (walk : List Revision) (m : RevisionMap),
    samePlumbing m (applyLabels m walk lbls) := by
  intro walk
  induction walk with
  | nil => intro m; exact samePlumbing_refl m
  | cons w rest ih =>
    intro m
    exact samePlumbing_trans (samePlumbing_updateLabels m w.revision lbls)
      (ih (m.updateNode w.revision
        (fun r => { r with branch_labels := listUnion r.branch_labels lbls })))

theorem samePlumbing_backProp (lbls : List String) :
    ∀ (fuel : Nat) (m : RevisionMap) (pid : String) (m' : RevisionMap),
    back_propagate lbls m pid fuel = .ok m' → samePlumbing m m' := by
  intro fuel
  induction fuel with
  | zero => intro m pid m' h; simp [back_propagate] at h
  | succ f ih =>
    intro m pid m' h
    simp only [back_propagate] at h
    cases hp : m.node? pid with
    | none => rw [hp] at h; simp at h
    | some p =>
      rw [hp] at h
      simp only [] at h
      by_cases hbm : (p.is_branch_point || p.is_merge_point) = true
      · rw [if_pos hbm] at h
        exact (Except.ok.inj h) ▸ samePlumbing_refl m
      · rw [if_neg hbm] at h
        cases hdr : p.down_revision with
        | nil =>
          rw [hdr] at h
          simp only [] at h
          exact (Except.ok.inj h) ▸ samePlumbing_updateLabels m pid lbls
        | cons d rest =>
          rw [hdr] at h
          simp only [] at h
          by_cases hde : (d == "") = true
          · rw [if_pos hde] at h
            exact (Except.ok.inj h) ▸ samePlumbing_updateLabels m pid lbls
          · rw [if_neg hde] at h
            exact samePlumbing_trans (samePlumbing_updateLabels m pid lbls) (ih _ _ _ h)

theorem registerLabels_plumbing :
    ∀ (ls : List String) (m : RevisionMap) (rid : String) (m' : RevisionMap),
    registerLabels m rid ls = .ok m' →
    m'.nodes = m.nodes ∧ m'.heads = m.heads ∧ m'.bases = m.bases ∧ m'.ids = m.ids := by
  intro ls
  induction ls with
  | nil =>
    intro m rid m' h
    exact (Except.ok.inj h) ▸ ⟨rfl, rfl, rfl, rfl⟩
  | cons l rest ih =>
    intro m rid m' h
    simp only [registerLabels] at h
    cases hl : m.lookupKey (some l) with
    | none =>
      rw [hl] at h
      simp only [] at h
      obtain ⟨k1, k2, k3, k4⟩ :=
        ih { m with aliases := m.aliases ++ [(l, rid)] } rid m' h
      exact ⟨k1, k2, k3, k4⟩
    | some o =>
      rw [hl] at h
      cases o with
      | none => simp only [] at h; exact absurd h (by simp)
      | some ex => simp only [] at h; exact absurd h (by simp)

theorem samePlumbing_of_nodes_eq {m m' : RevisionMap}
    (hn : m'.nodes = m.nodes) (hh : m'.heads = m.heads) (hb : m'.bases = m.bases)
    (hi : m'.ids = m.ids) : samePlumbing m m' := by
  refine ⟨hh, hb, hi, fun i => ?_⟩
  unfold RevisionMap.node?
  rw [hn]

theorem samePlumbing_addBranches (m : RevisionMap) (rid : String) (fuel : Nat)
    (m' : RevisionMap) (h : add_branches m rid fuel = .ok m') :
    samePlumbing m m' := by
  unfold add_branches at h
  cases hn : m.node? rid with
  | none => rw [hn] at h; simp at h
  | some rev =>
    rw [hn] at h
    simp only [] at h
    by_cases he : rev.branch_labels.isEmpty = true
    · rw [if_pos he] at h
      exact (Except.ok.inj h) ▸ samePlumbing_refl m
    · rw [if_neg he] at h
      cases hreg : registerLabels m rid rev.orig_branch_labels with
      | error e => rw [hreg] at h; simp at h
      | ok mr =>
        rw [hreg] at h
        obtain ⟨g1, g2, g3, g4⟩ := registerLabels_plumbing _ _ _ _ hreg
        have hpr : samePlumbing m mr := samePlumbing_of_nodes_eq g1 g2 g3 g4
        simp only [except_bind_ok] at h
        cases hwalk : get_descendant_nodes mr [rev] false fuel with
        | error e => rw [hwalk] at h; simp at h
        | ok walk =>
          rw [hwalk] at h
          simp only [except_bind_ok] at h
          have hap : samePlumbing mr (applyLabels mr walk rev.branch_labels) :=
            samePlumbing_applyLabels rev.branch_labels walk mr
          cases hlast : walk.getLast? with
          | none =>
            rw [hlast] at h
            exact samePlumbing_trans hpr ((Except.ok.inj h) ▸ hap)
          | some lastRev =>
            rw [hlast] at h
            exact samePlumbing_trans hpr (samePlumbing_trans hap
              (samePlumbing_backProp _ _ _ _ _ h))

theorem samePlumbing_branchesPhase :
    ∀ (labeled : List String) (m : RevisionMap) (fuel : Nat) (m' : RevisionMap),
    branchesPhase m labeled fuel = .ok m' → samePlumbing m m' := by
  intro labeled
  induction labeled with
  | nil =>
    intro m fuel m' h
    exact (Except.ok.inj h) ▸ samePlumbing_refl m
  | cons rid rest ih =>
    intro m fuel m' h
    simp only [branchesPhase] at h
    cases hab : add_branches m rid fuel with
    | error e => rw [hab] at h; simp at h
    | ok m1 =>
      rw [hab] at h
      exact samePlumbing_trans (samePlumbing_addBranches m rid fuel m1 hab) (ih m1 fuel m' h)

theorem filter_of_map (f : Revision → String) (p : String → Bool) :
    ∀ l : List Revision, (l.map f).filter p = (l.filter (fun r => p (f r))).map f := by
  intro l
  induction l with
  | nil => rfl
  | cons r rest ih =>
    by_cases h : p (f r) <;> simp [List.filter_cons, h, ih]

theorem find?_pairs_self (revs : List Revision)
    (hnd : (revs.map Revision.revision).Nodup) :
    ∀ r ∈ revs, (revs.map (fun r => (r.revision, r))).find?
      (fun p => p.1 == r.revision) = some (r.revision, r) := by
  induction revs with
  | nil => intro r hr; simp at hr
  | cons r0 rest ih =>
    have hnd' : r0.revision ∉ rest.map Revision.revision ∧
        (rest.map Revision.revision).Nodup := by
      rw [List.map_cons, List.nodup_cons] at hnd
      exact hnd
    intro r hr
    rcases List.mem_cons.mp hr with rfl | hr2
    · simp [List.find?_cons]
    · have hne : r0.revision ≠ r.revision := fun he =>
        hnd'.1 (he ▸ List.mem_map_of_mem Revision.revision hr2)
      have := ih hnd'.2 r hr2
      simp [List.find?_cons, hne, this]

theorem find?_pairs_mem (revs : List Revision) (i : String) (pr : String × Revision)
    (h : (revs.map (fun r => (r.revision, r))).find? (fun p => p.1 == i) = some pr) :
    pr.2 ∈ revs ∧ pr.2.revision = i ∧ pr.1 = i := by
  have hmem := List.mem_of_find?_eq_some h
  have hkey : pr.1 = i := by simpa using List.find?_some h
  obtain ⟨r2, _hr2, rfl⟩ := List.mem_map.mp hmem
  exact ⟨_hr2, hkey, hkey⟩

/-- C9: after every successful build from a duplicate-free producer of
fresh revisions, `bases` is exactly the ids of the zero-parent revisions
in construction order, and `heads` is exactly the ids of the revisions
that no revision references as a parent, in construction order;
moreover a stored node has an empty child list precisely when its id is
in `heads`. -/
theorem C9_bases_heads_exact (revs : List Revision) (fuel : Nat)
    (ws : List BuildWarn) (m : RevisionMap)
    (hnd : (revs.map Revision.revision).Nodup)
    (hinit : ∀ r ∈ revs, r.nextrev = [])
    (hbuild : build_revision_map revs fuel = (ws, .ok m)) :
    m.bases = (revs.filter (fun r => r.is_base)).map Revision.revision ∧
    m.heads = (revs.filter (fun r =>
      !(revs.any (fun r2 => r2.down_revision.contains r.revision)))).map
        Revision.revision ∧
    (∀ i n, m.node? i = some n → (n.nextrev.isEmpty = true ↔ i ∈ m.heads)) := by
  simp only [build_revision_map, phase1_char revs hnd] at hbuild
  set m1 : RevisionMap :=
    ⟨revs.map Revision.revision, revs.map (fun r => (r.revision, r)), [],
     revs.map Revision.revision,
     (revs.filter (fun r => r.is_base)).map Revision.revision⟩ with hm1
  cases hfold : (revs.map Revision.revision).foldl linkDownrevs ([], Except.ok m1) with
  | mk ws1 rr =>
    rw [hfold] at hbuild
    cases rr with
    | error e => simp at hbuild
    | ok m2 =>
      simp only [] at hbuild
      injection hbuild with hws hbr
      have hnodelit : ∀ r ∈ revs, m1.node? r.revision = some r := by
        intro r hr
        rw [hm1]
        show ((revs.map (fun q => (q.revision, q))).find?
          (fun p => p.1 == r.revision)).map (fun p => p.2) = some r
        simp [find?_pairs_self revs hnd r hr]
      obtain ⟨hw0, hm2⟩ := link_fold_ok revs [] ws1 m1 m2
        (fun r hr => ⟨r, hnodelit r hr, rfl, rfl⟩) hfold
      have hsp : samePlumbing m2 m := samePlumbing_branchesPhase _ m2 fuel m hbr
      have hbase : m.bases =
          (revs.filter (fun r => r.is_base)).map Revision.revision := by
        rw [hsp.2.1, hm2, (misc_linkAllPure revs m1).2.1, hm1]
      have hm1heads : m1.heads = revs.map Revision.revision := by rw [hm1]
      have hheads : m.heads = (revs.filter (fun r =>
          !(revs.any (fun r2 => r2.down_revision.contains r.revision)))).map
            Revision.revision := by
        rw [hsp.1, hm2, heads_linkAllPure, hm1heads,
          heads_erase_char revs (revs.map Revision.revision) hnd, filter_of_map]
      refine ⟨hbase, hheads, ?_⟩
      intro i n hni
      have hform := node?_linkAllPure revs m1 i
      rw [← hm2] at hform
      have hsp23 := hsp.2.2.2 i
      rw [hni, hform] at hsp23
      cases hmi1 : m1.node? i with
      | none => rw [hmi1] at hsp23; simp at hsp23
      | some n1 =>
        rw [hmi1] at hsp23
        have hval : n.nextrev =
            (revs.foldl (fun n' r =>
              if r.down_revision.contains i then n'.add_nextrev r.revision else n')
              n1).nextrev := by
          simpa using hsp23
        have hmi1' := hmi1
        rw [hm1] at hmi1'
        simp only [RevisionMap.node?] at hmi1'
        cases hfind : (revs.map (fun r => (r.revision, r))).find?
            (fun p => p.1 == i) with
        | none => rw [hfind] at hmi1'; simp at hmi1'
        | some pr =>
          rw [hfind] at hmi1'
          obtain ⟨hprmem, hprrev, _⟩ := find?_pairs_mem revs i pr hfind
          have hn1eq : n1 = pr.2 := by simpa using hmi1'.symm
          have hn1nil : n1.nextrev = [] := by
            rw [hn1eq]; exact hinit pr.2 hprmem
          rw [nextrev_foldl i revs n1 hnd
            (fun r _ => by rw [hn1nil]; exact List.not_mem_nil r.revision)] at hval
          have hkey : n.nextrev = childrenOf revs i := by
            rw [hval]; simp [hn1nil]
          have hiff : (childrenOf revs i = []) ↔
              (revs.any (fun r2 => r2.down_revision.contains i) = false) := by
            constructor
            · intro he
              rw [List.any_eq_false]
              intro r2 hr2 hc
              have hmm : r2.revision ∈ childrenOf revs i :=
                List.mem_map.mpr ⟨r2, List.mem_filter.mpr ⟨hr2, hc⟩, rfl⟩
              rw [he] at hmm
              exact (List.not_mem_nil r2.revision) hmm
            · intro ha
              by_contra hne
              obtain ⟨x, hx⟩ := List.exists_mem_of_ne_nil _ hne
              obtain ⟨r2, hr2f, _⟩ := List.mem_map.mp hx
              obtain ⟨hr2, hc⟩ := List.mem_filter.mp hr2f
              rw [List.any_eq_false] at ha
              exact ha r2 hr2 hc
          have hie : ∀ l : List String, (l.isEmpty = true ↔ l = []) := by
            intro l; cases l <;> simp
          rw [hheads, hkey, hie, hiff]
          constructor
          · intro ha
            refine List.mem_map.mpr ⟨pr.2, List.mem_filter.mpr ⟨hprmem, ?_⟩, hprrev⟩
            simp only [hprrev, ha, Bool.not_false]
          · intro hm'
            obtain ⟨r3, hr3f, hr3i⟩ := List.mem_map.mp hm'
            obtain ⟨hr3, hr3p⟩ := List.mem_filter.mp hr3f
            simpa [hr3i] using hr3p

/-- Concrete instance discharging the hypotheses of the C9 theorem on the
two-node producer a, b(parent a). -/
theorem C9_bases_heads_exact_witness :
    (([Revision.make "a" [] [], Revision.make "b" ["a"] []].map
        Revision.revision).Nodup ∧
      (∀ r ∈ [Revision.make "a" [] [], Revision.make "b" ["a"] []],
        r.nextrev = []) ∧
      build_revision_map [Revision.make "a" [] [], Revision.make "b" ["a"] []] 4 =
        ([], .ok ⟨["a", "b"],
          [("a", ⟨"a", [], [], [], ["b"]⟩), ("b", ⟨"b", ["a"], [], [], []⟩)],
          [], ["b"], ["a"]⟩)) ∧
    ((⟨["a", "b"],
        [("a", ⟨"a", [], [], [], ["b"]⟩), ("b", ⟨"b", ["a"], [], [], []⟩)],
        [], ["b"], ["a"]⟩ : RevisionMap).bases =
      ([Revision.make "a" [] [], Revision.make "b" ["a"] []].filter
        (fun r => r.is_base)).map Revision.revision ∧
     (⟨["a", "b"],
        [("a", ⟨"a", [], [], [], ["b"]⟩), ("b", ⟨"b", ["a"], [], [], []⟩)],
        [], ["b"], ["a"]⟩ : RevisionMap).heads =
      ([Revision.make "a" [] [], Revision.make "b" ["a"] []].filter
        (fun r => !([Revision.make "a" [] [], Revision.make "b" ["a"] []].any
          (fun r2 => r2.down_revision.contains r.revision)))).map
        Revision.revision ∧
     (∀ i n, (⟨["a", "b"],
        [("a", ⟨"a", [], [], [], ["b"]⟩), ("b", ⟨"b", ["a"], [], [], []⟩)],
        [], ["b"], ["a"]⟩ : RevisionMap).node? i = some n →
       (n.nextrev.isEmpty = true ↔ i ∈ (⟨["a", "b"],
        [("a", ⟨"a", [], [], [], ["b"]⟩), ("b", ⟨"b", ["a"], [], [], []⟩)],
        [], ["b"], ["a"]⟩ : RevisionMap).heads))) :=
  ⟨⟨by decide, by decide, by rfl⟩,
    C9_bases_heads_exact [Revision.make "a" [] [], Revision.make "b" ["a"] []] 4
      [] _ (by decide) (by decide) (by rfl)⟩


/- ------------------------------------------------------------------ C5 -/

/-- The map built from the labelled linear chain a <- b("l") <- c: the
backward walk from the last-visited node c reaches a, so every node
carries the label. -/
def lblChain3 (a b c l : String) : RevisionMap :=
  ⟨[a, b, c],
   [(a, ⟨a, [], [], [l], [b]⟩), (b, ⟨b, [a], [l], [l], [c]⟩),
    (c, ⟨c, [b], [], [l], []⟩)],
   [(l, b)], [c], [a]⟩

/-- The labelled linear chain after the first two build passes, before
the label pass. -/
def lblChain3Pre (a b c l : String) : RevisionMap :=
  ⟨[a, b, c],
   [(a, ⟨a, [], [], [], [b]⟩), (b, ⟨b, [a], [l], [l], [c]⟩),
    (c, ⟨c, [b], [], [], []⟩)],
   [], [c], [a]⟩

theorem lbl3_phase12 (hab : a ≠ b) (hac : a ≠ c) (hbc : b ≠ c) :
    (build_revision_map
      [Revision.make a [] [], Revision.make b [a] [l], Revision.make c [b] []]
      12).2 = branchesPhase (lblChain3Pre a b c l) [b] 12 := by
  simp [build_revision_map, insertIntoMap, linkDownrevs, linkOne,
    RevisionMap.node?, RevisionMap.updateNode, Revision.make, Revision.is_base,
    emptyMap, addUnique, listUnion, Revision.add_nextrev, List.erase,
    lblChain3Pre, hab, hac, hbc, Ne.symm hab, Ne.symm hac, Ne.symm hbc]

theorem lbl3_register (hla : l ≠ a) (hlb : l ≠ b) (hlc : l ≠ c) :
    registerLabels (lblChain3Pre a b c l) b [l] =
      .ok { lblChain3Pre a b c l with aliases := [(l, b)] } := by
  simp [registerLabels, RevisionMap.lookupKey, RevisionMap.node?, lblChain3Pre,
    hla, hlb, hlc, Ne.symm hla, Ne.symm hlb, Ne.symm hlc]

theorem lbl3_walk (hab : a ≠ b) (hac : a ≠ c) (hbc : b ≠ c) :
    get_descendant_nodes { lblChain3Pre a b c l with aliases := [(l, b)] }
      [⟨b, [a], [l], [l], [c]⟩] false 12 =
      .ok [⟨b, [a], [l], [l], [c]⟩, ⟨c, [b], [], [], []⟩] := by
  simp [get_descendant_nodes, iterate_related_revisions, relatedAux, drain,
    nodesOf, lookupRev, RevisionMap.lookupKey, RevisionMap.node?, nextFn,
    lblChain3Pre, hab, hac, hbc, Ne.symm hab, Ne.symm hac, Ne.symm hbc]

theorem lbl3_apply (hab : a ≠ b) (hac : a ≠ c) (hbc : b ≠ c) :
    applyLabels { lblChain3Pre a b c l with aliases := [(l, b)] }
      [⟨b, [a], [l], [l], [c]⟩, ⟨c, [b], [], [], []⟩] [l] =
      ⟨[a, b, c],
       [(a, ⟨a, [], [], [], [b]⟩), (b, ⟨b, [a], [l], [l], [c]⟩),
        (c, ⟨c, [b], [], [l], []⟩)],
       [(l, b)], [c], [a]⟩ := by
  simp [applyLabels, RevisionMap.updateNode, listUnion, addUnique, lblChain3Pre,
    hab, hac, hbc, Ne.symm hab, Ne.symm hac, Ne.symm hbc]

theorem lbl3_back (hab : a ≠ b) (hac : a ≠ c) (hbc : b ≠ c)
    (ha0 : a ≠ "") (hb0 : b ≠ "") :
    back_propagate [l]
      (⟨[a, b, c],
        [(a, ⟨a, [], [], [], [b]⟩), (b, ⟨b, [a], [l], [l], [c]⟩),
         (c, ⟨c, [b], [], [l], []⟩)],
        [(l, b)], [c], [a]⟩ : RevisionMap) c 12 =
      .ok (lblChain3 a b c l) := by
  simp [back_propagate, RevisionMap.node?, RevisionMap.updateNode,
    Revision.is_branch_point, Revision.is_merge_point, listUnion, addUnique,
    lblChain3, hab, hac, hbc, ha0, hb0,
    Ne.symm hab, Ne.symm hac, Ne.symm hbc, Ne.symm ha0, Ne.symm hb0]

theorem lbl3_build (hab : a ≠ b) (hac : a ≠ c) (hbc : b ≠ c)
    (hla : l ≠ a) (hlb : l ≠ b) (hlc : l ≠ c)
    (ha0 : a ≠ "") (hb0 : b ≠ "") :
    (build_revision_map
      [Revision.make a [] [], Revision.make b [a] [l], Revision.make c [b] []]
      12).2 = .ok (lblChain3 a b c l) := by
  rw [lbl3_phase12 hab hac hbc]
  have hb : add_branches (lblChain3Pre a b c l) b 12 = .ok (lblChain3 a b c l) := by
    rw [add_branches]
    have hnb : (lblChain3Pre a b c l).node? b = some ⟨b, [a], [l], [l], [c]⟩ := by
      simp [lblChain3Pre, RevisionMap.node?, hab, Ne.symm hab]
    rw [hnb]
    simp only [List.isEmpty_cons, Bool.false_eq_true, if_false,
      lbl3_register hla hlb hlc, except_bind_ok, lbl3_walk hab hac hbc,
      lbl3_apply hab hac hbc, List.getLast?_cons_cons, List.getLast?_singleton]
    exact lbl3_back hab hac hbc ha0 hb0
  simp only [branchesPhase, hb]


/-- The map built from the labelled fork a <- b("l") <- c, c <- d, c <- e:
the forward walk from b visits b, c, e, d; the backward walk starts at the
last-visited node d and stops at the branch point c, so the base a never
receives the label. -/
def lblFork5 (a b c d e l : String) : RevisionMap :=
  ⟨[a, b, c, d, e],
   [(a, ⟨a, [], [], [], [b]⟩), (b, ⟨b, [a], [l], [l], [c]⟩),
    (c, ⟨c, [b], [], [l], [d, e]⟩), (d, ⟨d, [c], [], [l], []⟩),
    (e, ⟨e, [c], [], [l], []⟩)],
   [(l, b)], [d, e], [a]⟩

/-- The labelled fork after the first two build passes, before the label
pass. -/
def lblFork5Pre (a b c d e l : String) : RevisionMap :=
  ⟨[a, b, c, d, e],
   [(a, ⟨a, [], [], [], [b]⟩), (b, ⟨b, [a], [l], [l], [c]⟩),
    (c, ⟨c, [b], [], [], [d, e]⟩), (d, ⟨d, [c], [], [], []⟩),
    (e, ⟨e, [c], [], [], []⟩)],
   [], [d, e], [a]⟩

theorem fork5_phase12 (hab : a ≠ b) (hac : a ≠ c) (had : a ≠ d) (hae : a ≠ e)
    (hbc : b ≠ c) (hbd : b ≠ d) (hbe : b ≠ e) (hcd : c ≠ d) (hce : c ≠ e)
    (hde : d ≠ e) :
    (build_revision_map
      [Revision.make a [] [], Revision.make b [a] [l], Revision.make c [b] [],
       Revision.make d [c] [], Revision.make e [c] []] 12).2 =
      branchesPhase (lblFork5Pre a b c d e l) [b] 12 := by
  simp [build_revision_map, insertIntoMap, linkDownrevs, linkOne,
    RevisionMap.node?, RevisionMap.updateNode, Revision.make, Revision.is_base,
    emptyMap, addUnique, listUnion, Revision.add_nextrev,
    lblFork5Pre, hab, hac, had, hae, hbc, hbd, hbe, hcd, hce, hde,
    Ne.symm hab, Ne.symm hac, Ne.symm had, Ne.symm hae, Ne.symm hbc,
    Ne.symm hbd, Ne.symm hbe, Ne.symm hcd, Ne.symm hce, Ne.symm hde]

theorem fork5_register (hla : l ≠ a) (hlb : l ≠ b) (hlc : l ≠ c) (hld : l ≠ d)
    (hle : l ≠ e) :
    registerLabels (lblFork5Pre a b c d e l) b [l] =
      .ok { lblFork5Pre a b c d e l with aliases := [(l, b)] } := by
  simp [registerLabels, RevisionMap.lookupKey, RevisionMap.node?, lblFork5Pre,
    hla, hlb, hlc, hld, hle,
    Ne.symm hla, Ne.symm hlb, Ne.symm hlc, Ne.symm hld, Ne.symm hle]

theorem fork5_walk (hab : a ≠ b) (hac : a ≠ c) (had : a ≠ d) (hae : a ≠ e)
    (hbc : b ≠ c) (hbd : b ≠ d) (hbe : b ≠ e) (hcd : c ≠ d) (hce : c ≠ e)
    (hde : d ≠ e) :
    get_descendant_nodes { lblFork5Pre a b c d e l with aliases := [(l, b)] }
      [⟨b, [a], [l], [l], [c]⟩] false 12 =
      .ok [⟨b, [a], [l], [l], [c]⟩, ⟨c, [b], [], [], [d, e]⟩,
        ⟨e, [c], [], [], []⟩, ⟨d, [c], [], [], []⟩] := by
  simp [get_descendant_nodes, iterate_related_revisions, relatedAux, drain,
    nodesOf, lookupRev, RevisionMap.lookupKey, RevisionMap.node?, nextFn,
    lblFork5Pre, hab, hac, had, hae, hbc, hbd, hbe, hcd, hce, hde,
    Ne.symm hab, Ne.symm hac, Ne.symm had, Ne.symm hae, Ne.symm hbc,
    Ne.symm hbd, Ne.symm hbe, Ne.symm hcd, Ne.symm hce, Ne.symm hde]

theorem fork5_apply (hab : a ≠ b) (hac : a ≠ c) (had : a ≠ d) (hae : a ≠ e)
    (hbc : b ≠ c) (hbd : b ≠ d) (hbe : b ≠ e) (hcd : c ≠ d) (hce : c ≠ e)
    (hde : d ≠ e) :
    applyLabels { lblFork5Pre a b c d e l with aliases := [(l, b)] }
      [⟨b, [a], [l], [l], [c]⟩, ⟨c, [b], [], [], [d, e]⟩,
       ⟨e, [c], [], [], []⟩, ⟨d, [c], [], [], []⟩] [l] =
      ⟨[a, b, c, d, e],
       [(a, ⟨a, [], [], [], [b]⟩), (b, ⟨b, [a], [l], [l], [c]⟩),
        (c, ⟨c, [b], [], [l], [d, e]⟩), (d, ⟨d, [c], [], [l], []⟩),
        (e, ⟨e, [c], [], [l], []⟩)],
       [(l, b)], [d, e], [a]⟩ := by
  simp [applyLabels, RevisionMap.updateNode, listUnion, addUnique, lblFork5Pre,
    hab, hac, had, hae, hbc, hbd, hbe, hcd, hce, hde,
    Ne.symm hab, Ne.symm hac, Ne.symm had, Ne.symm hae, Ne.symm hbc,
    Ne.symm hbd, Ne.symm hbe, Ne.symm hcd, Ne.symm hce, Ne.symm hde]

theorem fork5_back (had : a ≠ d) (hbd : b ≠ d) (hcd : c ≠ d) (hde : d ≠ e)
    (hac : a ≠ c) (hbc : b ≠ c) (hce : c ≠ e) (hc0 : c ≠ "") :
    back_propagate [l]
      (⟨[a, b, c, d, e],
        [(a, ⟨a, [], [], [], [b]⟩), (b, ⟨b, [a], [l], [l], [c]⟩),
         (c, ⟨c, [b], [], [l], [d, e]⟩), (d, ⟨d, [c], [], [l], []⟩),
         (e, ⟨e, [c], [], [l], []⟩)],
        [(l, b)], [d, e], [a]⟩ : RevisionMap) d 12 =
      .ok (lblFork5 a b c d e l) := by
  simp [back_propagate, RevisionMap.node?, RevisionMap.updateNode,
    Revision.is_branch_point, Revision.is_merge_point, listUnion, addUnique,
    lblFork5, had, hbd, hcd, hde, hac, hbc, hce, hc0,
    Ne.symm had, Ne.symm hbd, Ne.symm hcd, Ne.symm hde, Ne.symm hac,
    Ne.symm hbc, Ne.symm hce, Ne.symm hc0]

theorem fork5_build (hab : a ≠ b) (hac : a ≠ c) (had : a ≠ d) (hae : a ≠ e)
    (hbc : b ≠ c) (hbd : b ≠ d) (hbe : b ≠ e) (hcd : c ≠ d) (hce : c ≠ e)
    (hde : d ≠ e) (hla : l ≠ a) (hlb : l ≠ b) (hlc : l ≠ c) (hld : l ≠ d)
    (hle : l ≠ e) (hc0 : c ≠ "") :
    (build_revision_map
      [Revision.make a [] [], Revision.make b [a] [l], Revision.make c [b] [],
       Revision.make d [c] [], Revision.make e [c] []] 12).2 =
      .ok (lblFork5 a b c d e l) := by
  rw [fork5_phase12 hab hac had hae hbc hbd hbe hcd hce hde]
  have hb : add_branches (lblFork5Pre a b c d e l) b 12 =
      .ok (lblFork5 a b c d e l) := by
    rw [add_branches]
    have hnb : (lblFork5Pre a b c d e l).node? b = some ⟨b, [a], [l], [l], [c]⟩ := by
      simp [lblFork5Pre, RevisionMap.node?, hab, Ne.symm hab]
    rw [hnb]
    simp only [List.isEmpty_cons, Bool.false_eq_true, if_false,
      fork5_register hla hlb hlc hld hle, except_bind_ok,
      fork5_walk hab hac had hae hbc hbd hbe hcd hce hde,
      fork5_apply hab hac had hae hbc hbd hbe hcd hce hde,
      List.getLast?_cons_cons, List.getLast?_singleton]
    exact fork5_back had hbd hcd hde hac hbc hce hc0
  simp only [branchesPhase, hb]


/-- The original C5 claim fails: on the fork a <- b("rel1") <- c with
c <- d and c <- e, node b carries the label, b's sole parent is a, and
neither a nor b is a branch point or a merge point -- no branch or merge
point lies between a and b -- yet after the build a does not carry the
label (the backward walk starts at the last-visited descendant d and
stops at the branch point c, never reaching a). -/
theorem C5_backwalk_counterexample :
    (build_revision_map
      [Revision.make "a" [] [], Revision.make "b" ["a"] ["rel1"],
       Revision.make "c" ["b"] [], Revision.make "d" ["c"] [],
       Revision.make "e" ["c"] []] 12).2 =
      .ok (lblFork5 "a" "b" "c" "d" "e" "rel1") ∧
    ((lblFork5 "a" "b" "c" "d" "e" "rel1").node? "b").map
      (fun n => (n.down_revision, n.branch_labels.contains "rel1",
        n.is_branch_point, n.is_merge_point)) = some (["a"], true, false, false) ∧
    ((lblFork5 "a" "b" "c" "d" "e" "rel1").node? "a").map
      (fun n => (n.is_branch_point, n.is_merge_point,
        n.branch_labels.contains "rel1")) = some (false, false, false) :=
  ⟨by rfl, by rfl, by rfl⟩

/-- C5 (amended): the label reaches B and every node of the forward
descendant walk from B; it reaches A exactly when the backward
single-parent walk from the walk's last-visited node, which stops at the
first branch point or merge point, gets through to A.  On the fork
family (a <- b(l) <- c, c <- d, c <- e) the walk's last node is d, the
backward walk stops at the branch point c, and a stays unlabelled even
though no branch or merge point lies between a and b; on the linear
family (a <- b(l) <- c) the backward walk from c passes the non-branch,
non-merge nodes c, b and a, and a is labelled. -/
theorem C5_label_propagation_backwalk
    (hab : a ≠ b) (hac : a ≠ c) (had : a ≠ d) (hae : a ≠ e)
    (hbc : b ≠ c) (hbd : b ≠ d) (hbe : b ≠ e) (hcd : c ≠ d) (hce : c ≠ e)
    (hde : d ≠ e) (hla : l ≠ a) (hlb : l ≠ b) (hlc : l ≠ c) (hld : l ≠ d)
    (hle : l ≠ e) (ha0 : a ≠ "") (hb0 : b ≠ "") (hc0 : c ≠ "") :
    ((build_revision_map
      [Revision.make a [] [], Revision.make b [a] [l],
       Revision.make c [b] [], Revision.make d [c] [],
       Revision.make e [c] []] 12).2 =
        .ok (lblFork5 a b c d e l) ∧
      ((lblFork5 a b c d e l).node? b).map
        (fun n => n.branch_labels.contains l) = some true ∧
      ((lblFork5 a b c d e l).node? c).map
        (fun n => n.branch_labels.contains l) = some true ∧
      ((lblFork5 a b c d e l).node? d).map
        (fun n => n.branch_labels.contains l) = some true ∧
      ((lblFork5 a b c d e l).node? e).map
        (fun n => n.branch_labels.contains l) = some true ∧
      ((lblFork5 a b c d e l).node? a).map
        (fun n => n.branch_labels.contains l) = some false ∧
      ((lblFork5 a b c d e l).node? c).map
        (fun n => n.is_branch_point) = some true) ∧
    ((build_revision_map
      [Revision.make a [] [], Revision.make b [a] [l],
       Revision.make c [b] []] 12).2 = .ok (lblChain3 a b c l) ∧
      ((lblChain3 a b c l).node? a).map
        (fun n => n.branch_labels.contains l) = some true ∧
      ((lblChain3 a b c l).node? b).map
        (fun n => n.branch_labels.contains l) = some true ∧
      ((lblChain3 a b c l).node? c).map
        (fun n => n.branch_labels.contains l) = some true ∧
      ((lblChain3 a b c l).node? a).map
        (fun n => (n.is_branch_point, n.is_merge_point)) = some (false, false) ∧
      ((lblChain3 a b c l).node? b).map
        (fun n => (n.is_branch_point, n.is_merge_point)) = some (false, false) ∧
      ((lblChain3 a b c l).node? c).map
        (fun n => (n.is_branch_point, n.is_merge_point)) = some (false, false)) := by
  refine ⟨⟨fork5_build hab hac had hae hbc hbd hbe hcd hce hde hla hlb hlc hld
      hle hc0, ?_, ?_, ?_, ?_, ?_, ?_⟩,
    lbl3_build hab hac hbc hla hlb hlc ha0 hb0, ?_, ?_, ?_, ?_, ?_, ?_⟩ <;>
    simp [lblFork5, lblChain3, RevisionMap.node?, Revision.is_branch_point,
      Revision.is_merge_point,
      hab, hac, had, hae, hbc, hbd, hbe, hcd, hce, hde,
      Ne.symm hab, Ne.symm hac, Ne.symm had, Ne.symm hae, Ne.symm hbc,
      Ne.symm hbd, Ne.symm hbe, Ne.symm hcd, Ne.symm hce, Ne.symm hde]

/-- Concrete instance discharging the hypotheses of the C5 theorem at
ids a, b, c, d, e and label rel1. -/
theorem C5_label_propagation_backwalk_witness :
    (("a" : String) ≠ "b" ∧ ("a" : String) ≠ "c" ∧ ("a" : String) ≠ "d" ∧
      ("a" : String) ≠ "e" ∧ ("b" : String) ≠ "c" ∧ ("b" : String) ≠ "d" ∧
      ("b" : String) ≠ "e" ∧ ("c" : String) ≠ "d" ∧ ("c" : String) ≠ "e" ∧
      ("d" : String) ≠ "e" ∧ ("rel1" : String) ≠ "a" ∧
      ("rel1" : String) ≠ "b" ∧ ("rel1" : String) ≠ "c" ∧
      ("rel1" : String) ≠ "d" ∧ ("rel1" : String) ≠ "e" ∧
      ("a" : String) ≠ "" ∧ ("b" : String) ≠ "" ∧ ("c" : String) ≠ "") ∧
    (((build_revision_map
      [Revision.make "a" [] [], Revision.make "b" ["a"] ["rel1"],
       Revision.make "c" ["b"] [], Revision.make "d" ["c"] [],
       Revision.make "e" ["c"] []] 12).2 =
        .ok (lblFork5 "a" "b" "c" "d" "e" "rel1") ∧
      ((lblFork5 "a" "b" "c" "d" "e" "rel1").node? "b").map
        (fun n => n.branch_labels.contains "rel1") = some true ∧
      ((lblFork5 "a" "b" "c" "d" "e" "rel1").node? "c").map
        (fun n => n.branch_labels.contains "rel1") = some true ∧
      ((lblFork5 "a" "b" "c" "d" "e" "rel1").node? "d").map
        (fun n => n.branch_labels.contains "rel1") = some true ∧
      ((lblFork5 "a" "b" "c" "d" "e" "rel1").node? "e").map
        (fun n => n.branch_labels.contains "rel1") = some true ∧
      ((lblFork5 "a" "b" "c" "d" "e" "rel1").node? "a").map
        (fun n => n.branch_labels.contains "rel1") = some false ∧
      ((lblFork5 "a" "b" "c" "d" "e" "rel1").node? "c").map
        (fun n => n.is_branch_point) = some true) ∧
    ((build_revision_map
      [Revision.make "a" [] [], Revision.make "b" ["a"] ["rel1"],
       Revision.make "c" ["b"] []] 12).2 = .ok (lblChain3 "a" "b" "c" "rel1") ∧
      ((lblChain3 "a" "b" "c" "rel1").node? "a").map
        (fun n => n.branch_labels.contains "rel1") = some true ∧
      ((lblChain3 "a" "b" "c" "rel1").node? "b").map
        (fun n => n.branch_labels.contains "rel1") = some true ∧
      ((lblChain3 "a" "b" "c" "rel1").node? "c").map
        (fun n => n.branch_labels.contains "rel1") = some true ∧
      ((lblChain3 "a" "b" "c" "rel1").node? "a").map
        (fun n => (n.is_branch_point, n.is_merge_point)) = some (false, false) ∧
      ((lblChain3 "a" "b" "c" "rel1").node? "b").map
        (fun n => (n.is_branch_point, n.is_merge_point)) = some (false, false) ∧
      ((lblChain3 "a" "b" "c" "rel1").node? "c").map
        (fun n => (n.is_branch_point, n.is_merge_point)) = some (false, false))) :=
  ⟨by decide,
    C5_label_propagation_backwalk (by decide) (by decide) (by decide) (by decide)
      (by decide) (by decide) (by decide) (by decide) (by decide) (by decide)
      (by decide) (by decide) (by decide) (by decide) (by decide) (by decide)
      (by decide) (by decide)⟩

end Alembic
